import Mathlib

/-!
# Verification of the Alex-Manetas-FOOD timesheet backend

Shallow embedding of the two Express/Supabase server variants
(`src/server.js` and the older variant `src/unnamed/part_000`):
the record table, the storage bucket, the note pack/parse helpers
(which store structured data as a JSON string in the `note` column),
and the six HTTP handlers of each variant, together with proofs of
the specified properties.

JSON values are modelled by the inductive `Json`; the environment
functions JSON.stringify / JSON.parse used by `packNote` / `parseNote`
are modelled by an executable serializer and recursive-descent parser.
Numeric literals follow the full RFC 8259 grammar (optional minus, an
integer part without leading zeros, optional fraction, optional
exponent) and are carried verbatim as their source token; object keys
are deduplicated exactly as JavaScript does (last value wins, the key
keeps its first position).
-/

set_option maxHeartbeats 1000000
set_option linter.unusedVariables false

namespace Food

/-- JSON values (JavaScript data reachable in this server).  A number is
carried as its decimal source token: the characters JSON.parse consumed
for it, or the characters JSON.stringify emits for it.  JavaScript holds
a double instead, which identifies distinct tokens of equal value (1 and
1.0) and collapses tokens outside the double range; every token
JSON.stringify emits is the canonical one of its double and round-trips
verbatim, so token preservation is exactly the double round trip on
serializer output. -/
inductive Json where
  | null : Json
  | bool : Bool → Json
  | num : String → Json
  | str : String → Json
  | arr : List Json → Json
  | obj : List (String × Json) → Json
deriving Repr

namespace Json

/-- Boolean equality on JSON values. -/
def beq : Json → Json → Bool
  | .null, .null => true
  | .bool a, .bool b => a == b
  | .num a, .num b => a == b
  | .str a, .str b => a == b
  | .arr a, .arr b => beqList a b
  | .obj a, .obj b => beqFields a b
  | _, _ => false
where
  beqList : List Json → List Json → Bool
    | [], [] => true
    | x :: xs, y :: ys => beq x y && beqList xs ys
    | _, _ => false
  beqFields : List (String × Json) → List (String × Json) → Bool
    | [], [] => true
    | (k, v) :: xs, (l, w) :: ys => k == l && beq v w && beqFields xs ys
    | _, _ => false

mutual

theorem beq_refl : (j : Json) → beq j j = true
  | .null => rfl
  | .bool b => by simp [beq]
  | .num n => by simp [beq]
  | .str s => by simp [beq]
  | .arr items => by simp only [beq]; exact beqList_refl items
  | .obj fields => by simp only [beq]; exact beqFields_refl fields

theorem beqList_refl : (l : List Json) → beq.beqList l l = true
  | [] => rfl
  | x :: xs => by simp [beq.beqList, beq_refl x, beqList_refl xs]

theorem beqFields_refl : (l : List (String × Json)) → beq.beqFields l l = true
  | [] => rfl
  | (k, v) :: xs => by simp [beq.beqFields, beq_refl v, beqFields_refl xs]

end

mutual

theorem eq_of_beq : (a b : Json) → beq a b = true → a = b
  | .null, .null, _ => rfl
  | .bool a, .bool b, h => by simp [beq] at h; simp [h]
  | .num a, .num b, h => by simp [beq] at h; simp [h]
  | .str a, .str b, h => by simp [beq] at h; simp [h]
  | .arr a, .arr b, h => by
      simp only [beq] at h
      rw [eqList_of_beq a b h]
  | .obj a, .obj b, h => by
      simp only [beq] at h
      rw [eqFields_of_beq a b h]

theorem eqList_of_beq : (a b : List Json) → beq.beqList a b = true → a = b
  | [], [], _ => rfl
  | x :: xs, y :: ys, h => by
      simp only [beq.beqList, Bool.and_eq_true] at h
      rw [eq_of_beq x y h.1, eqList_of_beq xs ys h.2]

theorem eqFields_of_beq : (a b : List (String × Json)) →
    beq.beqFields a b = true → a = b
  | [], [], _ => rfl
  | (k, v) :: xs, (l, w) :: ys, h => by
      simp only [beq.beqFields, Bool.and_eq_true, beq_iff_eq] at h
      rw [h.1.1, eq_of_beq v w h.1.2, eqFields_of_beq xs ys h.2]

end

instance : DecidableEq Json := fun a b =>
  if h : beq a b = true then .isTrue (eq_of_beq a b h)
  else .isFalse (fun he => h (he ▸ beq_refl a))

/-- Whether a number token denotes zero: no digit 1-9 occurs in its
mantissa (the part before any exponent).  An exponent never turns a
nonzero mantissa into zero or back within the double range; tokens
whose value underflows it, such as 1e-400, are beyond this model (no
number the server or JSON.stringify produces is one). -/
def zeroNumTok (l : List Char) : Bool :=
  (l.takeWhile (fun c => !(c = 'e' || c = 'E'))).all
    (fun c => c = '0' || c = '-' || c = '.')

/-- JavaScript truthiness of a JSON value (objects and arrays, even empty
ones, are truthy; 0, "", false, null are falsy). -/
def truthy : Json → Bool
  | .null => false
  | .bool b => b
  | .num s => !zeroNumTok s.toList
  | .str s => s != ""
  | .arr _ => true
  | .obj _ => true

/-- The JavaScript idiom a || b on JSON values. -/
def jsOr (a b : Json) : Json := if a.truthy then a else b

end Json

/-- Insert (k, v) into a JavaScript object's field list: if the key is
present, the value is overwritten in place (the key keeps its position);
otherwise the pair is appended. -/
def jsInsert (fields : List (String × Json)) (k : String) (v : Json) :
    List (String × Json) :=
  match fields with
  | [] => [(k, v)]
  | (k', v') :: rest =>
    if k' = k then (k', v) :: rest else (k', v') :: jsInsert rest k v

namespace Json

/-- Property read j[k] on a JSON value; absent keys and non-objects give
undefined, modelled as none. -/
def getProp (j : Json) (k : String) : Option Json :=
  match j with
  | .obj fields => fields.lookup k
  | _ => none

/-- Property write j[k] = v. On a non-object it is a silent no-op,
as in (non-strict) JavaScript for primitives. -/
def setProp (j : Json) (k : String) (v : Json) : Json :=
  match j with
  | .obj fields => .obj (jsInsert fields k v)
  | _ => j

/-- Property removal delete j[k]; a no-op on non-objects. -/
def delProp (j : Json) (k : String) : Json :=
  match j with
  | .obj fields => .obj (fields.filter (fun p => p.1 ≠ k))
  | _ => j

/-- The key set offered by object spread ...j: objects spread their
fields, strings and arrays spread their indices, primitives spread
nothing. -/
def jsSpread : Json → List (String × Json)
  | .obj fields => fields
  | .str s => s.toList.enum.map (fun p => (toString p.1, Json.str (String.singleton p.2)))
  | .arr items => items.enum.map (fun p => (toString p.1, p.2))
  | _ => []

/-- The JavaScript test (k in j) for objects. -/
def hasProp (j : Json) (k : String) : Bool :=
  match j with
  | .obj fields => fields.any (fun p => p.1 = k)
  | _ => false

/-- j[k] || dflt. -/
def orProp (j : Json) (k : String) (dflt : Json) : Json :=
  match j.getProp k with
  | some v => v.jsOr dflt
  | none => dflt

end Json

/-! ## JSON.stringify -/

/-- The character U+007B (object opener), kept out of literals. -/
def lbrace : Char := Char.ofNat 123

/-- The character U+007D (object closer). -/
def rbrace : Char := Char.ofNat 125

/-- Lower-case hexadecimal digit for a value below 16. -/
def hexDigitChar (n : Nat) : Char :=
  if n < 10 then Char.ofNat (48 + n) else Char.ofNat (87 + n)

/-- JSON.stringify escaping of one character inside a string literal. -/
def escChar (c : Char) : List Char :=
  if c = '"' then ['\\', '"']
  else if c = '\\' then ['\\', '\\']
  else if c = '\n' then ['\\', 'n']
  else if c = '\r' then ['\\', 'r']
  else if c = '\t' then ['\\', 't']
  else if c.toNat = 8 then ['\\', 'b']
  else if c.toNat = 12 then ['\\', 'f']
  else if c.toNat < 32 then
    ['\\', 'u', '0', '0', hexDigitChar (c.toNat / 16), hexDigitChar (c.toNat % 16)]
  else [c]

/-- The characters of a JSON string literal for s. -/
def emitStr (s : String) : List Char :=
  '"' :: s.toList.flatMap escChar ++ ['"']

mutual

/-- The characters JSON.stringify produces for a value (no whitespace,
as in single-argument JSON.stringify). -/
def emitVal : Json → List Char
  | .null => "null".toList
  | .bool true => "true".toList
  | .bool false => "false".toList
  | .num s => s.toList
  | .str s => emitStr s
  | .arr items => '[' :: emitItems items ++ [']']
  | .obj fields => lbrace :: emitFields fields ++ [rbrace]

/-- Comma-separated array elements. -/
def emitItems : List Json → List Char
  | [] => []
  | [x] => emitVal x
  | x :: y :: xs => emitVal x ++ ',' :: emitItems (y :: xs)

/-- Comma-separated key:value pairs. -/
def emitFields : List (String × Json) → List Char
  | [] => []
  | [(k, v)] => emitStr k ++ ':' :: emitVal v
  | (k, v) :: p :: xs => emitStr k ++ ':' :: emitVal v ++ ',' :: emitFields (p :: xs)

end

/-- JSON.stringify. -/
def Json.stringify (j : Json) : String := String.mk (emitVal j)

/-! ## JSON.parse (recursive descent, fuelled) -/

/-- JSON insignificant whitespace. -/
def isWsChar (c : Char) : Bool :=
  c = ' ' || c = '\n' || c = '\t' || c = '\r'

/-- Drop leading whitespace. -/
def skipWs : List Char → List Char
  | [] => []
  | c :: rest => if isWsChar c then skipWs rest else c :: rest

/-- Value of a hexadecimal digit. -/
def hexVal (c : Char) : Option Nat :=
  if '0' ≤ c ∧ c ≤ '9' then some (c.toNat - 48)
  else if 'a' ≤ c ∧ c ≤ 'f' then some (c.toNat - 87)
  else if 'A' ≤ c ∧ c ≤ 'F' then some (c.toNat - 55)
  else none

/-- Body of a JSON string literal (after the opening quote); acc holds
the accepted characters in reverse. -/
def parseStrAux : List Char → List Char → Option (String × List Char)
  | [], _ => none
  | c :: rest, acc =>
    if c = '"' then some (String.mk acc.reverse, rest)
    else if c = '\\' then
      match rest with
      | [] => none
      | e :: rest2 =>
        if e = '"' then parseStrAux rest2 ('"' :: acc)
        else if e = '\\' then parseStrAux rest2 ('\\' :: acc)
        else if e = '/' then parseStrAux rest2 ('/' :: acc)
        else if e = 'n' then parseStrAux rest2 ('\n' :: acc)
        else if e = 'r' then parseStrAux rest2 ('\r' :: acc)
        else if e = 't' then parseStrAux rest2 ('\t' :: acc)
        else if e = 'b' then parseStrAux rest2 (Char.ofNat 8 :: acc)
        else if e = 'f' then parseStrAux rest2 (Char.ofNat 12 :: acc)
        else if e = 'u' then
          match rest2 with
          | h1 :: h2 :: h3 :: h4 :: rest3 =>
            match hexVal h1, hexVal h2, hexVal h3, hexVal h4 with
            | some x1, some x2, some x3, some x4 =>
              parseStrAux rest3 (Char.ofNat (((x1 * 16 + x2) * 16 + x3) * 16 + x4) :: acc)
            | _, _, _, _ => none
          | _ => none
        else none
    else if c.toNat < 32 then none
    else parseStrAux rest (c :: acc)

/-- Leading decimal digits. -/
def takeDigits : List Char → List Char × List Char
  | [] => ([], [])
  | c :: rest =>
    if c.isDigit then
      let (ds, r) := takeDigits rest
      (c :: ds, r)
    else ([], c :: rest)

/-- The integer part of a JSON number token: a single 0, or a nonzero
digit followed by further digits (JSON.parse rejects leading zeros: the
scan stops after a leading 0 and the parser then rejects the stray
digit). -/
def intTok : List Char → Option (List Char × List Char)
  | [] => none
  | c :: t =>
    if c = '0' then some (['0'], t)
    else if c.isDigit then
      match takeDigits t with
      | (ds, r) => some (c :: ds, r)
    else none

/-- The fraction part of a JSON number token: a dot followed by at least
one digit.  Anything else contributes nothing; a bare trailing dot is
left in the input for the caller to reject, exactly as JSON.parse
does. -/
def fracTok : List Char → List Char × List Char
  | [] => ([], [])
  | c :: t =>
    if c = '.' then
      match takeDigits t with
      | ([], _) => ([], c :: t)
      | (d :: ds, r) => (c :: d :: ds, r)
    else ([], c :: t)

/-- The exponent part of a JSON number token: e or E, an optional sign,
then at least one digit.  A malformed exponent contributes nothing and
is left in the input for the caller to reject, as JSON.parse does. -/
def expTok : List Char → List Char × List Char
  | [] => ([], [])
  | c :: t =>
    if c = 'e' || c = 'E' then
      match t with
      | [] => ([], [c])
      | d :: t2 =>
        if d = '+' || d = '-' then
          match takeDigits t2 with
          | ([], _) => ([], c :: d :: t2)
          | (x :: ds, r) => (c :: d :: x :: ds, r)
        else
          match takeDigits t with
          | ([], _) => ([], c :: t)
          | (x :: ds, r) => (c :: x :: ds, r)
    else ([], c :: t)

/-- One JSON number token (RFC 8259: optional minus, integer part,
optional fraction, optional exponent), with the remaining input. -/
def numTok : List Char → Option (List Char × List Char)
  | [] => none
  | c :: t =>
    if c = '-' then
      match intTok t with
      | none => none
      | some (ip, r1) =>
        match fracTok r1 with
        | (fp, r2) =>
          match expTok r2 with
          | (ep, r3) => some (c :: (ip ++ fp ++ ep), r3)
    else
      match intTok (c :: t) with
      | none => none
      | some (ip, r1) =>
        match fracTok r1 with
        | (fp, r2) =>
          match expTok r2 with
          | (ep, r3) => some (ip ++ fp ++ ep, r3)

/-- JSON numeric literal: one number token, carried verbatim. -/
def parseNumTok (cs : List Char) : Option (Json × List Char) :=
  match numTok cs with
  | none => none
  | some (tok, r) => some (.num (String.mk tok), r)

mutual

/-- One JSON value, with leading whitespace allowed. -/
def parseVal : Nat → List Char → Option (Json × List Char)
  | 0, _ => none
  | fuel + 1, cs =>
    match skipWs cs with
    | [] => none
    | c :: rest =>
      if c = 'n' then
        match rest with
        | 'u' :: 'l' :: 'l' :: r => some (.null, r)
        | _ => none
      else if c = 't' then
        match rest with
        | 'r' :: 'u' :: 'e' :: r => some (.bool true, r)
        | _ => none
      else if c = 'f' then
        match rest with
        | 'a' :: 'l' :: 's' :: 'e' :: r => some (.bool false, r)
        | _ => none
      else if c = '"' then
        match parseStrAux rest [] with
        | some (s, r) => some (.str s, r)
        | none => none
      else if c = '[' then
        match skipWs rest with
        | [] => none
        | d :: r => if d = ']' then some (.arr [], r) else parseArrLoop fuel (d :: r) []
      else if c = lbrace then
        match skipWs rest with
        | [] => none
        | d :: r => if d = rbrace then some (.obj [], r) else parseObjLoop fuel (d :: r) []
      else if c = '-' || c.isDigit then parseNumTok (c :: rest)
      else none

/-- Array elements after the first [ (non-empty case). -/
def parseArrLoop : Nat → List Char → List Json → Option (Json × List Char)
  | 0, _, _ => none
  | fuel + 1, cs, acc =>
    match parseVal fuel cs with
    | none => none
    | some (v, rest) =>
      match skipWs rest with
      | [] => none
      | d :: rest2 =>
        if d = ',' then parseArrLoop fuel rest2 (acc ++ [v])
        else if d = ']' then some (.arr (acc ++ [v]), rest2)
        else none

/-- Object members (non-empty case); duplicated keys overwrite as in
JavaScript (last value wins, key keeps its first position). -/
def parseObjLoop : Nat → List Char → List (String × Json) → Option (Json × List Char)
  | 0, _, _ => none
  | fuel + 1, cs, acc =>
    match skipWs cs with
    | '"' :: rest =>
      match parseStrAux rest [] with
      | none => none
      | some (k, rest2) =>
        match skipWs rest2 with
        | ':' :: rest3 =>
          match parseVal fuel rest3 with
          | none => none
          | some (v, rest4) =>
            match skipWs rest4 with
            | [] => none
            | d :: rest5 =>
              if d = ',' then parseObjLoop fuel rest5 (jsInsert acc k v)
              else if d = rbrace then some (.obj (jsInsert acc k v), rest5)
              else none
        | _ => none
    | _ => none

end

/-- JSON.parse: the whole string must be one value (plus whitespace). -/
def Json.parse (s : String) : Option Json :=
  match parseVal (s.length + 1) s.toList with
  | some (j, rest) => if skipWs rest = [] then some j else none
  | none => none

/-! ## Round trip: parse (stringify j) = some j for well-formed values -/

mutual

/-- Node count of a JSON value (a fuel bound for the parser). -/
def sizeJ : Json → Nat
  | .null => 1
  | .bool _ => 1
  | .num _ => 1
  | .str _ => 1
  | .arr items => 1 + sizeL items
  | .obj fields => 1 + sizeF fields

def sizeL : List Json → Nat
  | [] => 0
  | j :: r => 1 + sizeJ j + sizeL r

def sizeF : List (String × Json) → Nat
  | [] => 0
  | p :: r => 1 + sizeJ p.2 + sizeF r

end

/-- No key occurs twice. -/
def nodupKeysB : List (String × Json) → Bool
  | [] => true
  | p :: r => !(r.any (fun q => q.1 = p.1)) && nodupKeysB r

mutual

/-- The JSON fragment an API-written note column can hold: no numeric
literals and no duplicated object keys (the server only ever packs
strings, booleans and objects built by its own code into the note).
This is the invariant fragment; the parser round-trips the wider
parse-image fragment `wfJ` below, of which this is a subset
(`wfJ_of_wfB`). -/
def wfB : Json → Bool
  | .null => true
  | .bool _ => true
  | .num _ => false
  | .str _ => true
  | .arr items => wfListB items
  | .obj fields => nodupKeysB fields && wfFieldsB fields

def wfListB : List Json → Bool
  | [] => true
  | j :: r => wfB j && wfListB r

def wfFieldsB : List (String × Json) → Bool
  | [] => true
  | p :: r => wfB p.2 && wfFieldsB r

end

mutual

/-- The image of JSON.parse: every numeric leaf carries one whole valid
number token and object keys never repeat (JavaScript objects cannot
repeat a key).  This is the fragment over which the serializer and the
parser are mutually inverse. -/
def wfJ : Json → Bool
  | .null => true
  | .bool _ => true
  | .num s => decide (numTok s.toList = some (s.toList, []))
  | .str _ => true
  | .arr items => wfListJ items
  | .obj fields => nodupKeysB fields && wfFieldsJ fields

def wfListJ : List Json → Bool
  | [] => true
  | j :: r => wfJ j && wfListJ r

def wfFieldsJ : List (String × Json) → Bool
  | [] => true
  | p :: r => wfJ p.2 && wfFieldsJ r

end

mutual

theorem wfJ_of_wfB : (j : Json) → wfB j = true → wfJ j = true
  | .null, _ => rfl
  | .bool _, _ => rfl
  | .num _, h => by simp [wfB] at h
  | .str _, _ => rfl
  | .arr items, h => by
    simp only [wfB] at h
    simp only [wfJ]
    exact wfListJ_of_wfListB items h
  | .obj fields, h => by
    simp only [wfB, Bool.and_eq_true] at h
    simp only [wfJ, Bool.and_eq_true]
    exact ⟨h.1, wfFieldsJ_of_wfFieldsB fields h.2⟩

theorem wfListJ_of_wfListB : (l : List Json) → wfListB l = true → wfListJ l = true
  | [], _ => rfl
  | j :: r, h => by
    simp only [wfListB, Bool.and_eq_true] at h
    simp only [wfListJ, Bool.and_eq_true]
    exact ⟨wfJ_of_wfB j h.1, wfListJ_of_wfListB r h.2⟩

theorem wfFieldsJ_of_wfFieldsB : (l : List (String × Json)) →
    wfFieldsB l = true → wfFieldsJ l = true
  | [], _ => rfl
  | p :: r, h => by
    simp only [wfFieldsB, Bool.and_eq_true] at h
    simp only [wfFieldsJ, Bool.and_eq_true]
    exact ⟨wfJ_of_wfB p.2 h.1, wfFieldsJ_of_wfFieldsB r h.2⟩

end

theorem nullChars : ("null".toList : List Char) = ['n', 'u', 'l', 'l'] := by decide

theorem trueChars : ("true".toList : List Char) = ['t', 'r', 'u', 'e'] := by decide

theorem falseChars : ("false".toList : List Char) = ['f', 'a', 'l', 's', 'e'] := by decide

theorem hexVal_hexDigitChar (n : Nat) (h : n < 16) : hexVal (hexDigitChar n) = some n := by
  interval_cases n <;> rfl

theorem mk_toList (s : String) : String.mk s.toList = s := rfl

theorem hexVal_zero : hexVal '0' = some 0 := by decide

theorem parseStrAux_esc : ∀ (cs rest acc : List Char),
    parseStrAux (cs.flatMap escChar ++ '"' :: rest) acc
      = some (String.mk (acc.reverse ++ cs), rest) := by
  intro cs
  induction cs with
  | nil =>
    intro rest acc
    rw [parseStrAux.eq_def]
    simp
  | cons c cs ih =>
    intro rest acc
    by_cases h1 : c = '"'
    · subst h1
      have he : escChar '"' = ['\\', '"'] := by decide
      simp only [List.flatMap_cons, he, List.cons_append, List.append_assoc]
      rw [parseStrAux.eq_def]
      simp [ih]
    · by_cases h2 : c = '\\'
      · subst h2
        have he : escChar '\\' = ['\\', '\\'] := by decide
        simp only [List.flatMap_cons, he, List.cons_append, List.append_assoc]
        rw [parseStrAux.eq_def]
        simp [ih]
      · by_cases h3 : c = '\n'
        · subst h3
          have he : escChar '\n' = ['\\', 'n'] := by decide
          simp only [List.flatMap_cons, he, List.cons_append, List.append_assoc]
          rw [parseStrAux.eq_def]
          simp [ih]
        · by_cases h4 : c = '\r'
          · subst h4
            have he : escChar '\r' = ['\\', 'r'] := by decide
            simp only [List.flatMap_cons, he, List.cons_append, List.append_assoc]
            rw [parseStrAux.eq_def]
            simp [ih]
          · by_cases h5 : c = '\t'
            · subst h5
              have he : escChar '\t' = ['\\', 't'] := by decide
              simp only [List.flatMap_cons, he, List.cons_append, List.append_assoc]
              rw [parseStrAux.eq_def]
              simp [ih]
            · by_cases h6 : c.toNat = 8
              · have hc : c = Char.ofNat 8 := by rw [← h6, Char.ofNat_toNat]
                subst hc
                have he : escChar (Char.ofNat 8) = ['\\', 'b'] := by decide
                simp only [List.flatMap_cons, he, List.cons_append, List.append_assoc]
                rw [parseStrAux.eq_def]
                simp [ih]
              · by_cases h7 : c.toNat = 12
                · have hc : c = Char.ofNat 12 := by rw [← h7, Char.ofNat_toNat]
                  subst hc
                  have he : escChar (Char.ofNat 12) = ['\\', 'f'] := by decide
                  simp only [List.flatMap_cons, he, List.cons_append, List.append_assoc]
                  rw [parseStrAux.eq_def]
                  simp [ih]
                · by_cases h8 : c.toNat < 32
                  · have hd1 : c.toNat / 16 < 16 := by omega
                    have hd2 : c.toNat % 16 < 16 := by omega
                    have he : escChar c = ['\\', 'u', '0', '0',
                        hexDigitChar (c.toNat / 16), hexDigitChar (c.toNat % 16)] := by
                      simp [escChar, h1, h2, h3, h4, h5, h6, h7, h8]
                    simp only [List.flatMap_cons, he, List.cons_append, List.append_assoc]
                    rw [parseStrAux.eq_def]
                    have h9 : Char.ofNat (c.toNat / 16 * 16 + c.toNat % 16) = c := by
                      rw [show c.toNat / 16 * 16 + c.toNat % 16 = c.toNat from by omega,
                        Char.ofNat_toNat]
                    simp [hexVal_zero, hexVal_hexDigitChar _ hd1, hexVal_hexDigitChar _ hd2,
                      h9, ih]
                  · have he : escChar c = [c] := by
                      simp [escChar, h1, h2, h3, h4, h5, h6, h7, h8]
                    simp only [List.flatMap_cons, he, List.cons_append, List.append_assoc,
                      List.singleton_append]
                    rw [parseStrAux.eq_def]
                    simp [h1, h2, h8, ih]

theorem sizeJ_pos (j : Json) : 1 ≤ sizeJ j := by
  cases j <;> simp only [sizeJ] <;> omega

theorem skipWs_cons (c : Char) (h : isWsChar c = false) (l : List Char) :
    skipWs (c :: l) = c :: l := by simp [skipWs, h]

/-! ## Number tokens survive an appended continuation

After an emitted number the serializer only ever places a separator, a
closing bracket or the end of input — never a character that could
extend the token.  `numBoundary` captures that, and the lemmas below
show the tokenizer scans the same token with such a continuation
appended. -/

/-- The continuation cannot extend a number token: it is empty or starts
with a character no part of the number grammar consumes. -/
def numBoundary : List Char → Bool
  | [] => true
  | c :: _ => !(c.isDigit || c = '.' || c = 'e' || c = 'E')

theorem ne_of_isDigit {c : Char} (h : c.isDigit = true) (d : Char)
    (hd : d.isDigit = false) : c ≠ d := by
  intro he
  rw [he, hd] at h
  exact Bool.noConfusion h

theorem isWsChar_of_isDigit {c : Char} (h : c.isDigit = true) :
    isWsChar c = false := by
  have h1 : c ≠ ' ' := ne_of_isDigit h ' ' (by decide)
  have h2 : c ≠ '\n' := ne_of_isDigit h '\n' (by decide)
  have h3 : c ≠ '\t' := ne_of_isDigit h '\t' (by decide)
  have h4 : c ≠ '\r' := ne_of_isDigit h '\r' (by decide)
  simp [isWsChar, h1, h2, h3, h4]

theorem numBoundary_head {c : Char} {t : List Char}
    (h : numBoundary (c :: t) = true) :
    c.isDigit = false ∧ c ≠ '.' ∧ c ≠ 'e' ∧ c ≠ 'E' := by
  refine ⟨?_, ?_, ?_, ?_⟩
  · by_cases hx : c.isDigit = true
    · simp [numBoundary, hx] at h
    · simpa [Bool.not_eq_true] using hx
  · intro hx; simp [numBoundary, hx] at h
  · intro hx; simp [numBoundary, hx] at h
  · intro hx; simp [numBoundary, hx] at h

theorem takeDigits_boundary (r : List Char) (h : numBoundary r = true) :
    takeDigits r = ([], r) := by
  cases r with
  | nil => rfl
  | cons c t => simp [takeDigits, (numBoundary_head h).1]

theorem fracTok_boundary (r : List Char) (h : numBoundary r = true) :
    fracTok r = ([], r) := by
  cases r with
  | nil => rfl
  | cons c t => simp [fracTok, (numBoundary_head h).2.1]

theorem expTok_boundary (r : List Char) (h : numBoundary r = true) :
    expTok r = ([], r) := by
  cases r with
  | nil => rfl
  | cons c t =>
    obtain ⟨-, -, he, hE⟩ := numBoundary_head h
    simp [expTok, he, hE]

theorem takeDigits_fst_nil : ∀ (t rr : List Char), takeDigits t = ([], rr) → rr = t
  | [], rr, h => by
    simp only [takeDigits, Prod.mk.injEq] at h
    exact h.2.symm
  | c :: t2, rr, h => by
    by_cases hd : c.isDigit = true
    · rcases h2 : takeDigits t2 with ⟨a, b⟩
      simp [takeDigits, hd, h2] at h
    · simp only [Bool.not_eq_true] at hd
      simp [takeDigits, hd] at h
      exact h.symm

theorem takeDigits_append_all : ∀ (xs r ds : List Char),
    takeDigits xs = (ds, []) → numBoundary r = true →
    takeDigits (xs ++ r) = (ds, r)
  | [], r, ds, h, hb => by
    simp only [takeDigits, Prod.mk.injEq] at h
    obtain ⟨rfl, -⟩ := h
    simpa using takeDigits_boundary r hb
  | c :: t, r, ds, h, hb => by
    by_cases hd : c.isDigit = true
    · rcases htd : takeDigits t with ⟨ds2, rr⟩
      simp only [takeDigits, if_pos hd, htd, Prod.mk.injEq] at h
      obtain ⟨rfl, hrr⟩ := h
      have ih := takeDigits_append_all t r ds2 (by rw [htd, hrr]) hb
      simp [takeDigits, hd, ih]
    · simp only [Bool.not_eq_true] at hd
      simp [takeDigits, hd] at h

theorem takeDigits_append_stop : ∀ (xs r ds : List Char) (c : Char) (cs : List Char),
    takeDigits xs = (ds, c :: cs) →
    takeDigits (xs ++ r) = (ds, c :: (cs ++ r))
  | [], r, ds, c, cs, h => by simp [takeDigits] at h
  | d :: t, r, ds, c, cs, h => by
    by_cases hd : d.isDigit = true
    · rcases htd : takeDigits t with ⟨ds2, rr⟩
      simp only [takeDigits, if_pos hd, htd, Prod.mk.injEq] at h
      obtain ⟨rfl, hrr⟩ := h
      have ih := takeDigits_append_stop t r ds2 c cs (by rw [htd, hrr])
      simp [takeDigits, hd, ih]
    · simp only [Bool.not_eq_true] at hd
      simp [takeDigits, hd] at h
      obtain ⟨rfl, rfl, rfl⟩ := h
      simp [takeDigits, hd]

theorem intTok_append (x r ip rem : List Char)
    (h : intTok x = some (ip, rem)) (hb : numBoundary r = true) :
    intTok (x ++ r) = some (ip, rem ++ r) := by
  cases x with
  | nil => simp [intTok] at h
  | cons c t =>
    by_cases h0 : c = '0'
    · subst h0
      simp only [intTok, if_pos rfl, Option.some.injEq, Prod.mk.injEq] at h
      obtain ⟨rfl, rfl⟩ := h
      simp [intTok]
    · by_cases hd : c.isDigit = true
      · rcases htd : takeDigits t with ⟨ds, rr⟩
        simp only [intTok, if_neg h0, if_pos hd, htd, Option.some.injEq,
          Prod.mk.injEq] at h
        obtain ⟨rfl, rfl⟩ := h
        cases rr with
        | nil =>
          have ha := takeDigits_append_all t r ds (by rw [htd]) hb
          simp [intTok, h0, hd, ha]
        | cons c2 cs =>
          have ha := takeDigits_append_stop t r ds c2 cs (by rw [htd])
          simp [intTok, h0, hd, ha]
      · simp only [Bool.not_eq_true] at hd
        simp [intTok, h0, hd] at h

theorem fracTok_append (x r fp rem : List Char)
    (h : fracTok x = (fp, rem)) (hb : numBoundary r = true) :
    fracTok (x ++ r) = (fp, rem ++ r) := by
  cases x with
  | nil =>
    simp only [fracTok, Prod.mk.injEq] at h
    obtain ⟨rfl, rfl⟩ := h
    simpa using fracTok_boundary r hb
  | cons c t =>
    by_cases hc : c = '.'
    · subst hc
      rcases htd : takeDigits t with ⟨ds, rr⟩
      cases ds with
      | nil =>
        have ht2 : rr = t := takeDigits_fst_nil t rr htd
        rw [ht2] at htd
        simp only [fracTok, if_pos rfl, htd, Prod.mk.injEq] at h
        obtain ⟨rfl, rfl⟩ := h
        cases t with
        | nil =>
          simp [fracTok, takeDigits_boundary r hb]
        | cons d t2 =>
          have hd : d.isDigit = false := by
            by_cases hdd : d.isDigit = true
            · rcases h2 : takeDigits t2 with ⟨a, b⟩
              simp [takeDigits, hdd, h2] at htd
            · simpa [Bool.not_eq_true] using hdd
          simp [fracTok, takeDigits, hd]
      | cons d ds2 =>
        simp [fracTok, htd] at h
        obtain ⟨h1, h2⟩ := h
        subst h1
        subst h2
        cases rr with
        | nil =>
          have ha := takeDigits_append_all t r (d :: ds2) (by rw [htd]) hb
          simp [fracTok, ha]
        | cons c2 cs =>
          have ha := takeDigits_append_stop t r (d :: ds2) c2 cs (by rw [htd])
          simp [fracTok, ha]
    · simp only [fracTok, if_neg hc, Prod.mk.injEq] at h
      obtain ⟨rfl, rfl⟩ := h
      simp [fracTok, hc]

theorem expTok_append (x r ep : List Char)
    (h : expTok x = (ep, [])) (hb : numBoundary r = true) :
    expTok (x ++ r) = (ep, r) := by
  cases x with
  | nil =>
    simp only [expTok, Prod.mk.injEq] at h
    obtain ⟨rfl, -⟩ := h
    simpa using expTok_boundary r hb
  | cons c t =>
    by_cases hc : (c = 'e' || c = 'E') = true
    · cases t with
      | nil => simp [expTok, hc] at h
      | cons d t2 =>
        by_cases hd : (d = '+' || d = '-') = true
        · rcases htd : takeDigits t2 with ⟨ds, rr⟩
          cases ds with
          | nil => simp [expTok, hc, hd, htd] at h
          | cons x1 ds2 =>
            simp only [expTok, if_pos hc, if_pos hd, htd, Prod.mk.injEq] at h
            obtain ⟨rfl, hrr⟩ := h
            have ha := takeDigits_append_all t2 r (x1 :: ds2) (by rw [htd, hrr]) hb
            simp [expTok, hc, hd, ha]
        · rcases htd : takeDigits (d :: t2) with ⟨ds, rr⟩
          cases ds with
          | nil => simp [expTok, hc, hd, htd] at h
          | cons x1 ds2 =>
            simp only [expTok, if_pos hc, if_neg hd, htd, Prod.mk.injEq] at h
            obtain ⟨rfl, hrr⟩ := h
            have ha := takeDigits_append_all (d :: t2) r (x1 :: ds2)
              (by rw [htd, hrr]) hb
            simp only [List.cons_append] at ha
            simp [expTok, hc, hd, ha]
    · simp only [Bool.not_eq_true] at hc
      simp [expTok, hc] at h

theorem numTok_append (l r tok : List Char)
    (h : numTok l = some (tok, [])) (hb : numBoundary r = true) :
    numTok (l ++ r) = some (tok, r) := by
  cases l with
  | nil => simp [numTok] at h
  | cons c t =>
    by_cases hc : c = '-'
    · subst hc
      rcases hI : intTok t with - | ⟨ip, r1⟩
      · simp [numTok, hI] at h
      · rcases hF : fracTok r1 with ⟨fp, r2⟩
        rcases hE : expTok r2 with ⟨ep, r3⟩
        simp [numTok, hI, hF, hE] at h
        obtain ⟨h1, h2⟩ := h
        subst h1
        subst h2
        have hI2 := intTok_append t r ip r1 hI hb
        have hF2 := fracTok_append r1 r fp r2 hF hb
        have hE2 := expTok_append r2 r ep hE hb
        simp [numTok, hI2, hF2, hE2]
    · rcases hI : intTok (c :: t) with - | ⟨ip, r1⟩
      · simp [numTok, hc, hI] at h
      · rcases hF : fracTok r1 with ⟨fp, r2⟩
        rcases hE : expTok r2 with ⟨ep, r3⟩
        simp only [numTok, if_neg hc, hI, hF, hE, Option.some.injEq,
          Prod.mk.injEq] at h
        obtain ⟨h1, h2⟩ := h
        subst h1
        subst h2
        have hI2 := intTok_append (c :: t) r ip r1 hI hb
        have hF2 := fracTok_append r1 r fp r2 hF hb
        have hE2 := expTok_append r2 r ep hE hb
        simp only [List.cons_append] at hI2
        simp [numTok, hc, hI2, hF2, hE2]

theorem numTok_head (l tok r : List Char) (h : numTok l = some (tok, r)) :
    ∃ c t, l = c :: t ∧ (c = '-' ∨ c.isDigit = true) := by
  cases l with
  | nil => simp [numTok] at h
  | cons c t =>
    refine ⟨c, t, rfl, ?_⟩
    by_cases hc : c = '-'
    · exact Or.inl hc
    · right
      by_cases h0 : c = '0'
      · subst h0; decide
      · by_cases hd : c.isDigit = true
        · exact hd
        · simp only [Bool.not_eq_true] at hd
          simp [numTok, hc, intTok, h0, hd] at h

theorem numHead_ne (c : Char) (h : c = '-' ∨ c.isDigit = true) (d : Char)
    (hd : d ≠ '-') (hdd : d.isDigit = false) : c ≠ d := by
  rcases h with h | h
  · subst h; exact fun he => hd he.symm
  · exact ne_of_isDigit h d hdd

theorem numHead_not_ws (c : Char) (h : c = '-' ∨ c.isDigit = true) :
    isWsChar c = false := by
  rcases h with h | h
  · subst h; decide
  · exact isWsChar_of_isDigit h

theorem emitVal_cons (j : Json) (h : wfJ j = true) :
    ∃ c t, emitVal j = c :: t ∧ isWsChar c = false ∧ c ≠ ']' ∧ c ≠ rbrace := by
  cases j with
  | null => exact ⟨'n', ['u', 'l', 'l'], by decide, by decide, by decide, by decide⟩
  | bool b =>
    cases b with
    | false => exact ⟨'f', ['a', 'l', 's', 'e'], by decide, by decide, by decide, by decide⟩
    | true => exact ⟨'t', ['r', 'u', 'e'], by decide, by decide, by decide, by decide⟩
  | num s =>
    have hv : numTok s.toList = some (s.toList, []) := by
      simpa [wfJ] using h
    obtain ⟨c, t, hst, hcd⟩ := numTok_head s.toList s.toList [] hv
    exact ⟨c, t, hst, numHead_not_ws c hcd,
      numHead_ne c hcd ']' (by decide) (by decide),
      numHead_ne c hcd rbrace (by decide) (by decide)⟩
  | str s => exact ⟨'"', _, rfl, by decide, by decide, by decide⟩
  | arr items => exact ⟨'[', _, rfl, by decide, by decide, by decide⟩
  | obj fields => exact ⟨lbrace, _, rfl, by decide, by decide, by decide⟩

theorem wfListJ_cons {x : Json} {xs : List Json} (h : wfListJ (x :: xs) = true) :
    wfJ x = true ∧ wfListJ xs = true := by
  have h2 : (wfJ x && wfListJ xs) = true := h
  simp only [Bool.and_eq_true] at h2
  exact h2

theorem wfFieldsJ_cons {p : String × Json} {l : List (String × Json)}
    (h : wfFieldsJ (p :: l) = true) : wfJ p.2 = true ∧ wfFieldsJ l = true := by
  have h2 : (wfJ p.2 && wfFieldsJ l) = true := h
  simp only [Bool.and_eq_true] at h2
  exact h2

/-- Building a JavaScript object by successive property writes. -/
def objFold (acc : List (String × Json)) (l : List (String × Json)) :
    List (String × Json) :=
  l.foldl (fun a p => jsInsert a p.1 p.2) acc

theorem jsInsert_of_not_mem (acc : List (String × Json)) (k : String) (v : Json)
    (h : ∀ p ∈ acc, p.1 ≠ k) : jsInsert acc k v = acc ++ [(k, v)] := by
  induction acc with
  | nil => rfl
  | cons q rest ih =>
    have hq : q.1 ≠ k := h q (List.mem_cons_self q rest)
    simp only [jsInsert, if_neg hq, List.cons_append]
    rw [ih (fun p hp => h p (List.mem_cons_of_mem q hp))]

theorem objFold_eq_append : ∀ (l acc : List (String × Json)),
    nodupKeysB l = true → (∀ p ∈ acc, ∀ q ∈ l, p.1 ≠ q.1) →
    objFold acc l = acc ++ l := by
  intro l
  induction l with
  | nil => intro acc _ _; simp [objFold]
  | cons q rest ih =>
    intro acc hnd hdisj
    simp only [nodupKeysB, Bool.and_eq_true, Bool.not_eq_true'] at hnd
    have h1 : ∀ p ∈ acc, p.1 ≠ q.1 :=
      fun p hp => hdisj p hp q (List.mem_cons_self q rest)
    simp only [objFold, List.foldl_cons]
    rw [show (jsInsert acc q.1 q.2) = acc ++ [(q.1, q.2)] from jsInsert_of_not_mem _ _ _ h1]
    have h2 : ∀ p ∈ acc ++ [(q.1, q.2)], ∀ r ∈ rest, p.1 ≠ r.1 := by
      intro p hp r hr
      rcases List.mem_append.mp hp with hp1 | hp2
      · exact hdisj p hp1 r (List.mem_cons_of_mem q hr)
      · have : p = (q.1, q.2) := by simpa using hp2
        subst this
        intro hcontra
        have : rest.any (fun z => z.1 = q.1) = true :=
          List.any_eq_true.mpr ⟨r, hr, by simp [hcontra.symm]⟩
        simp [this] at hnd
    have := ih (acc ++ [(q.1, q.2)]) hnd.2 h2
    simp only [objFold] at this
    rw [this]
    simp

mutual

theorem parseVal_emit : ∀ (fuel : Nat) (j : Json) (rest : List Char),
    wfJ j = true → sizeJ j ≤ fuel → numBoundary rest = true →
    parseVal fuel (emitVal j ++ rest) = some (j, rest)
  | 0, j, rest, hwf, hsz, hnb => absurd hsz (by have := sizeJ_pos j; omega)
  | fuel + 1, j, rest, hwf, hsz, hnb => by
    cases j with
    | null => simp [emitVal, nullChars, parseVal, skipWs, isWsChar]
    | bool b =>
      cases b <;> simp [emitVal, trueChars, falseChars, parseVal, skipWs, isWsChar]
    | num s =>
      have hv : numTok s.toList = some (s.toList, []) := by
        simpa [wfJ] using hwf
      obtain ⟨c, t, hst, hcd⟩ := numTok_head s.toList s.toList [] hv
      have hws2 := numHead_not_ws c hcd
      have hn := numHead_ne c hcd 'n' (by decide) (by decide)
      have ht := numHead_ne c hcd 't' (by decide) (by decide)
      have hf := numHead_ne c hcd 'f' (by decide) (by decide)
      have hq := numHead_ne c hcd '"' (by decide) (by decide)
      have hlb := numHead_ne c hcd '[' (by decide) (by decide)
      have hbr := numHead_ne c hcd lbrace (by decide) (by decide)
      have happ := numTok_append s.toList rest s.toList hv hnb
      rw [show emitVal (.num s) ++ rest = c :: (t ++ rest) by
        rw [show emitVal (.num s) = c :: t from hst, List.cons_append]]
      simp only [parseVal]
      rw [skipWs_cons c hws2]
      simp only [if_neg hn, if_neg ht, if_neg hf, if_neg hq, if_neg hlb, if_neg hbr]
      have hcond : (c = '-' || c.isDigit) = true := by
        rcases hcd with h2 | h2
        · subst h2; simp
        · simp [h2]
      rw [if_pos hcond]
      have hfinal : parseNumTok (s.toList ++ rest) = some (Json.num s, rest) := by
        unfold parseNumTok
        rw [show numTok (s.toList ++ rest) = some (s.toList, rest) from happ]
        rfl
      rw [show c :: (t ++ rest) = s.toList ++ rest by
        rw [show s.toList = c :: t from hst, List.cons_append]]
      exact hfinal
    | str s =>
      simp only [emitVal, emitStr, List.cons_append, List.append_assoc,
        List.singleton_append]
      simp [parseVal, skipWs, isWsChar, parseStrAux_esc, mk_toList]
    | arr items =>
      cases items with
      | nil => simp [emitVal, emitItems, parseVal, skipWs, isWsChar]
      | cons x xs =>
        simp only [wfJ, wfListJ, Bool.and_eq_true] at hwf
        simp only [sizeJ, sizeL] at hsz
        obtain ⟨c, t, hx, hws, hne1, _⟩ := emitVal_cons x hwf.1
        have harr : parseArrLoop fuel (emitItems (x :: xs) ++ ']' :: rest) []
            = some (.arr (x :: xs), rest) := by
          have h := parseArrLoop_emit fuel x xs [] rest
            (by simp [wfListJ, hwf.1, hwf.2]) (by simp only [sizeL]; omega)
          simpa using h
        simp only [emitVal, List.cons_append, List.append_assoc, List.singleton_append]
        simp only [parseVal]
        rw [skipWs_cons '[' (by decide)]
        simp only [if_neg (by decide : ¬('[' : Char) = 'n'),
          if_neg (by decide : ¬('[' : Char) = 't'),
          if_neg (by decide : ¬('[' : Char) = 'f'),
          if_neg (by decide : ¬('[' : Char) = '"'),
          if_pos (rfl : ('[' : Char) = '['), if_true]
        simp only [List.nil_append]
        cases xs with
        | nil =>
          rw [show emitItems [x] ++ ']' :: rest = c :: (t ++ ']' :: rest) by
            simp [emitItems, hx]]
          rw [skipWs_cons c hws]
          simp only [if_neg hne1]
          rw [show c :: (t ++ ']' :: rest) = emitItems [x] ++ ']' :: rest by
            simp [emitItems, hx]]
          exact harr
        | cons y ys =>
          rw [show emitItems (x :: y :: ys) ++ ']' :: rest
              = c :: (t ++ (',' :: (emitItems (y :: ys) ++ ']' :: rest))) by
            simp [emitItems, hx, List.append_assoc]]
          rw [skipWs_cons c hws]
          simp only [if_neg hne1]
          rw [show c :: (t ++ (',' :: (emitItems (y :: ys) ++ ']' :: rest)))
              = emitItems (x :: y :: ys) ++ ']' :: rest by
            simp [emitItems, hx, List.append_assoc]]
          exact harr
    | obj fields =>
      cases fields with
      | nil => simp [emitVal, emitFields, parseVal, skipWs, isWsChar, lbrace, rbrace]
      | cons p fs =>
        obtain ⟨k, v⟩ := p
        simp only [wfJ, nodupKeysB, wfFieldsJ, Bool.and_eq_true,
          Bool.not_eq_true'] at hwf
        simp only [sizeJ, sizeF] at hsz
        have hobj : parseObjLoop fuel (emitFields ((k, v) :: fs) ++ rbrace :: rest) []
            = some (.obj ((k, v) :: fs), rest) := by
          have hl := parseObjLoop_emit fuel k v fs [] rest
            (by simp [wfFieldsJ, hwf.2.1, hwf.2.2]) (by simp only [sizeF]; omega)
          rw [hl]
          congr 2
          have h2 := objFold_eq_append ((k, v) :: fs) []
            (by simp [nodupKeysB, hwf.1.1, hwf.1.2]) (by simp)
          simpa using h2
        simp only [emitVal, List.cons_append, List.append_assoc, List.singleton_append]
        simp only [parseVal]
        rw [skipWs_cons lbrace (by decide)]
        simp only [if_neg (by decide : ¬(lbrace : Char) = 'n'),
          if_neg (by decide : ¬(lbrace : Char) = 't'),
          if_neg (by decide : ¬(lbrace : Char) = 'f'),
          if_neg (by decide : ¬(lbrace : Char) = '"'),
          if_neg (by decide : ¬(lbrace : Char) = '['),
          if_pos (rfl : (lbrace : Char) = lbrace), if_true]
        simp only [List.nil_append]
        cases fs with
        | nil =>
          rw [show emitFields [(k, v)] ++ rbrace :: rest
              = '"' :: (k.toList.flatMap escChar ++ '"'
                :: (':' :: (emitVal v ++ rbrace :: rest))) by
            simp [emitFields, emitStr, List.append_assoc]]
          rw [skipWs_cons '"' (by decide)]
          simp only [if_neg (by decide : ¬('"' : Char) = rbrace)]
          rw [show '"' :: (k.toList.flatMap escChar ++ '"'
                :: (':' :: (emitVal v ++ rbrace :: rest)))
              = emitFields [(k, v)] ++ rbrace :: rest by
            simp [emitFields, emitStr, List.append_assoc]]
          exact hobj
        | cons q qs =>
          rw [show emitFields ((k, v) :: q :: qs) ++ rbrace :: rest
              = '"' :: (k.toList.flatMap escChar ++ '"'
                :: (':' :: (emitVal v
                  ++ ',' :: (emitFields (q :: qs) ++ rbrace :: rest)))) by
            simp [emitFields, emitStr, List.append_assoc]]
          rw [skipWs_cons '"' (by decide)]
          simp only [if_neg (by decide : ¬('"' : Char) = rbrace)]
          rw [show '"' :: (k.toList.flatMap escChar ++ '"'
                :: (':' :: (emitVal v
                  ++ ',' :: (emitFields (q :: qs) ++ rbrace :: rest))))
              = emitFields ((k, v) :: q :: qs) ++ rbrace :: rest by
            simp [emitFields, emitStr, List.append_assoc]]
          exact hobj

theorem parseArrLoop_emit : ∀ (fuel : Nat) (x : Json) (xs acc : List Json)
    (rest : List Char), wfListJ (x :: xs) = true → sizeL (x :: xs) ≤ fuel →
    parseArrLoop fuel (emitItems (x :: xs) ++ ']' :: rest) acc
      = some (.arr (acc ++ x :: xs), rest)
  | 0, x, xs, acc, rest, hwf, hsz => absurd hsz (by simp only [sizeL]; omega)
  | fuel + 1, x, xs, acc, rest, hwf, hsz => by
    simp only [wfListJ, Bool.and_eq_true] at hwf
    simp only [sizeL] at hsz
    have hx1 := sizeJ_pos x
    cases xs with
    | nil =>
      have hv := parseVal_emit fuel x (']' :: rest) hwf.1 (by omega)
        (by simp only [numBoundary]; decide)
      simp only [emitItems, parseArrLoop, hv, skipWs_cons ']' (by decide),
        if_neg (by decide : ¬(']' : Char) = ','), if_pos (rfl : (']' : Char) = ']'),
        if_true]
    | cons y ys =>
      have hv := parseVal_emit fuel x (',' :: (emitItems (y :: ys) ++ ']' :: rest))
        hwf.1 (by omega) (by simp only [numBoundary]; decide)
      have hloop := parseArrLoop_emit fuel y ys (acc ++ [x]) rest hwf.2
        (by simp only [sizeL] at *; omega)
      simp only [emitItems, parseArrLoop, List.cons_append, List.append_assoc,
        List.singleton_append, List.nil_append, hv, skipWs_cons ',' (by decide),
        if_pos (rfl : (',' : Char) = ','), hloop]
      simp

theorem parseObjLoop_emit : ∀ (fuel : Nat) (k : String) (v : Json)
    (fs acc : List (String × Json)) (rest : List Char),
    wfFieldsJ ((k, v) :: fs) = true → sizeF ((k, v) :: fs) ≤ fuel →
    parseObjLoop fuel (emitFields ((k, v) :: fs) ++ rbrace :: rest) acc
      = some (.obj (objFold acc ((k, v) :: fs)), rest)
  | 0, k, v, fs, acc, rest, hwf, hsz => absurd hsz (by simp only [sizeF]; omega)
  | fuel + 1, k, v, fs, acc, rest, hwf, hsz => by
    simp only [wfFieldsJ, Bool.and_eq_true] at hwf
    simp only [sizeF] at hsz
    have hv1 := sizeJ_pos v
    cases fs with
    | nil =>
      have hv := parseVal_emit fuel v (rbrace :: rest) hwf.1 (by omega)
        (by simp only [numBoundary]; decide)
      simp only [emitFields, emitStr, parseObjLoop, List.cons_append, List.append_assoc,
        List.singleton_append, List.nil_append, skipWs_cons '"' (by decide),
        parseStrAux_esc, List.reverse_nil, mk_toList, skipWs_cons ':' (by decide),
        hv, skipWs_cons rbrace (by decide), if_neg (by decide : ¬(rbrace : Char) = ','),
        if_pos (rfl : (rbrace : Char) = rbrace)]
      simp [objFold]
    | cons q qs =>
      obtain ⟨k2, v2⟩ := q
      have hv := parseVal_emit fuel v
        (',' :: (emitFields ((k2, v2) :: qs) ++ rbrace :: rest)) hwf.1 (by omega)
        (by simp only [numBoundary]; decide)
      have hloop := parseObjLoop_emit fuel k2 v2 qs (jsInsert acc k v) rest hwf.2
        (by simp only [sizeF] at *; omega)
      simp only [emitFields, emitStr, parseObjLoop, List.cons_append, List.append_assoc,
        List.singleton_append, List.nil_append, skipWs_cons '"' (by decide),
        parseStrAux_esc, List.reverse_nil, mk_toList, skipWs_cons ':' (by decide),
        hv, skipWs_cons ',' (by decide), if_pos (rfl : (',' : Char) = ','), hloop]
      simp [objFold]

end

mutual

theorem sizeJ_le_emit : ∀ (j : Json), wfJ j = true → sizeJ j ≤ (emitVal j).length
  | .null, _ => by decide
  | .bool b, _ => by cases b <;> decide
  | .num s, h => by
    have hv : numTok s.toList = some (s.toList, []) := by simpa [wfJ] using h
    obtain ⟨c, t, hst, -⟩ := numTok_head s.toList s.toList [] hv
    simp only [sizeJ, emitVal, hst, List.length_cons]
    omega
  | .str s, _ => by simp [sizeJ, emitVal, emitStr]
  | .arr items, h => by
    have h2 : wfListJ items = true := by simpa [wfJ] using h
    have h3 := sizeL_le_emit items h2
    simp only [sizeJ, emitVal, List.length_cons, List.length_append,
      List.length_singleton]
    omega
  | .obj fields, h => by
    have h2 : wfFieldsJ fields = true := by
      have h4 := h
      simp only [wfJ, Bool.and_eq_true] at h4
      exact h4.2
    have h3 := sizeF_le_emit fields h2
    simp only [sizeJ, emitVal, List.length_cons, List.length_append,
      List.length_singleton]
    omega

theorem sizeL_le_emit : ∀ (l : List Json), wfListJ l = true →
    sizeL l ≤ (emitItems l).length + 1
  | [], _ => by simp [sizeL]
  | [x], h => by
    have h3 := sizeJ_le_emit x (wfListJ_cons h).1
    simp only [sizeL, emitItems]
    omega
  | x :: y :: ys, h => by
    obtain ⟨hx, hrest⟩ := wfListJ_cons h
    have h1 := sizeJ_le_emit x hx
    have h2 := sizeL_le_emit (y :: ys) hrest
    simp only [sizeL, emitItems, List.length_cons, List.length_append] at *
    omega

theorem sizeF_le_emit : ∀ (l : List (String × Json)), wfFieldsJ l = true →
    sizeF l ≤ (emitFields l).length + 1
  | [], _ => by simp [sizeF]
  | [(k, v)], h => by
    have h3 := sizeJ_le_emit v (wfFieldsJ_cons h).1
    simp only [sizeF, emitFields, emitStr, List.length_cons, List.length_append]
    omega
  | (k, v) :: q :: qs, h => by
    obtain ⟨hv, hrest⟩ := wfFieldsJ_cons h
    have h1 := sizeJ_le_emit v hv
    have h2 := sizeF_le_emit (q :: qs) hrest
    simp only [sizeF, emitFields, emitStr, List.length_cons, List.length_append] at *
    omega

end

/-- The serializer and parser form a round trip on the parse-image
fragment. -/
theorem parse_stringify (j : Json) (h : wfJ j = true) :
    Json.parse (Json.stringify j) = some j := by
  have hlist : (Json.stringify j).toList = emitVal j := rfl
  have hlen : (Json.stringify j).length = (emitVal j).length := rfl
  have hp := parseVal_emit ((emitVal j).length + 1) j [] h
    (Nat.le_trans (sizeJ_le_emit j h) (Nat.le_succ _)) rfl
  rw [List.append_nil] at hp
  have hdata : (Json.stringify j).data = emitVal j := rfl
  simp [Json.parse, hlist, hlen, hdata, hp, skipWs]

/-! ## The note pack/unpack helpers (src/server.js lines 33-47) -/

/-- Result of parseNote: the unpacked text, per-meal timestamp map and
extra-field map.  Each component is a JSON value, as in the source (a
hand-written legacy note can make any of them a non-object). -/
structure NoteParts where
  text : Json
  times : Json
  extra : Json
deriving Repr, DecidableEq

/-- src/server.js parseNote (lines 34-43).  A missing or empty note gives
defaults; a JSON object with a text key is unpacked with || defaults
(typeof null is 'object' in JavaScript but 'text' in null throws, and the
throw is caught, so null also falls back; an array has no text key and
falls back too); anything else is returned as a bare text string. -/
def parseNote : Option String → NoteParts
  | none => ⟨.str "", .obj [], .obj []⟩
  | some raw =>
    if raw = "" then ⟨.str "", .obj [], .obj []⟩
    else
      match Json.parse raw with
      | some (Json.obj fields) =>
        if (Json.obj fields).hasProp "text" then
          ⟨(Json.obj fields).orProp "text" (.str ""),
           (Json.obj fields).orProp "times" (.obj []),
           (Json.obj fields).orProp "extra" (.obj [])⟩
        else ⟨.str raw, .obj [], .obj []⟩
      | some _ => ⟨.str raw, .obj [], .obj []⟩
      | none => ⟨.str raw, .obj [], .obj []⟩

/-- src/server.js packNote (lines 45-47): JSON.stringify of
(text || ''), (times || u007b u007d), (extra || u007b u007d). -/
def packNote (text times extra : Json) : String :=
  Json.stringify (.obj [("text", text.jsOr (.str "")),
                        ("times", times.jsOr (.obj [])),
                        ("extra", extra.jsOr (.obj []))])

theorem wfB_jsOr (a b : Json) (ha : wfB a = true) (hb : wfB b = true) :
    wfB (a.jsOr b) = true := by
  unfold Json.jsOr
  split <;> assumption

theorem wfJ_jsOr (a b : Json) (ha : wfJ a = true) (hb : wfJ b = true) :
    wfJ (a.jsOr b) = true := by
  unfold Json.jsOr
  split <;> assumption

theorem jsOr_jsOr (a b : Json) : (a.jsOr b).jsOr b = a.jsOr b := by
  unfold Json.jsOr
  by_cases h : a.truthy <;> simp [h]

/-- parseNote inverts packNote (up to the || normalizations packNote
itself applies), for well-formed components. -/
theorem parseNote_packNote (text times extra : Json)
    (ht : wfJ text = true) (hti : wfJ times = true) (he : wfJ extra = true) :
    parseNote (some (packNote text times extra))
      = ⟨text.jsOr (.str ""), times.jsOr (.obj []), extra.jsOr (.obj [])⟩ := by
  have hwf : wfJ (.obj [("text", text.jsOr (.str "")),
      ("times", times.jsOr (.obj [])), ("extra", extra.jsOr (.obj []))]) = true := by
    simp only [wfJ, nodupKeysB, wfFieldsJ, Bool.and_eq_true]
    refine ⟨by simp, ?_, ?_, ?_, ?_⟩
    · exact wfJ_jsOr _ _ ht rfl
    · exact wfJ_jsOr _ _ hti rfl
    · exact wfJ_jsOr _ _ he rfl
    · trivial
  have hpack : Json.parse (packNote text times extra)
      = some (.obj [("text", text.jsOr (.str "")),
          ("times", times.jsOr (.obj [])), ("extra", extra.jsOr (.obj []))]) :=
    parse_stringify _ hwf
  have hne : packNote text times extra ≠ "" := by
    unfold packNote Json.stringify
    intro hcontra
    have h2 : (String.mk (emitVal (.obj [("text", text.jsOr (.str "")),
        ("times", times.jsOr (.obj [])), ("extra", extra.jsOr (.obj []))]))).data
        = ("" : String).data := by rw [hcontra]
    simp [emitVal] at h2
  simp only [parseNote, if_neg hne, hpack]
  simp only [Json.hasProp, List.any_cons, Json.orProp, Json.getProp, List.lookup]
  simp [jsOr_jsOr]

/-! ## Record store, blob store and request data (src/server.js) -/

/-- One row of the Supabase table (columns of the Videos table the code
reads and writes); none models SQL null / an absent column. -/
structure DbRow where
  meal1 : Option Bool := none
  meal2 : Option Bool := none
  meal3 : Option Bool := none
  note : Option String := none
deriving Repr, DecidableEq

/-- The recognized fields of a POST /api/data/:dateKey body; none means
the field is absent from the partial update (the handlers test presence
with the JavaScript in operator).  Unrecognized body fields are never
read by either variant, so they are not modelled. -/
structure Updates where
  meal1 : Option Bool := none
  meal2 : Option Bool := none
  meal3 : Option Bool := none
  meal4 : Option Bool := none
  note : Option String := none
deriving Repr, DecidableEq

/-- One stored object of the Videos bucket. -/
structure Blob where
  name : String
  content : String
  contentType : String
deriving Repr, DecidableEq

/-- A multipart upload as multer presents it to the handler. -/
structure VFile where
  originalname : String
  mimetype : String
  buffer : String
deriving Repr, DecidableEq

/-- The two stores the service reads and writes.  The table is an
association list (Supabase select('*') returns the rows in storage
order); the bucket is the list of stored objects. -/
structure ServerState where
  table : List (String × DbRow)
  bucket : List Blob
deriving Repr, DecidableEq

/-- The empty deployment. -/
def initState : ServerState := { table := [], bucket := [] }

/-- HTTP responses the handlers can produce. -/
inductive Resp where
  | json (j : Json)
  | redirect (blobName : String)
  | err (status : Nat) (msg : String)
deriving Repr, DecidableEq

/-- The response body u007b ok: true u007d. -/
def okResp : Resp := .json (.obj [("ok", .bool true)])

/-- Supabase upsert(row, onConflict date_key): the first row with this
key has exactly the payload's columns overwritten; with no matching row
a new row is appended whose unlisted columns are null. -/
def mergeRow (old patch : DbRow) : DbRow :=
  { meal1 := match patch.meal1 with | some b => some b | none => old.meal1,
    meal2 := match patch.meal2 with | some b => some b | none => old.meal2,
    meal3 := match patch.meal3 with | some b => some b | none => old.meal3,
    note := match patch.note with | some s => some s | none => old.note }

def upsertTable : List (String × DbRow) → String → DbRow → List (String × DbRow)
  | [], dk, patch => [(dk, mergeRow {} patch)]
  | (k, r) :: rest, dk, patch =>
    if k = dk then (k, mergeRow r patch) :: rest
    else (k, r) :: upsertTable rest dk patch

/-- Node path.extname: the suffix of the last path segment from its last
dot, except that a dot in first position (a hidden file) and the segment
.. give the empty string. -/
def extname (p : String) : String :=
  let base := (p.toList.reverse.takeWhile (fun c => c ≠ '/')).reverse
  if base = ['.', '.'] then ""
  else
    match base.reverse.findIdx? (fun c => c = '.') with
    | none => ""
    | some i =>
      let pos := base.length - 1 - i
      if pos = 0 then "" else String.mk (base.drop pos)

/-- JavaScript String.prototype.startsWith, stated over the character
lists (kernel-evaluable). -/
def strStartsWith (s pfx : String) : Bool :=
  pfx.toList.isPrefixOf s.toList

/-! ## The six handlers of src/server.js -/

/-- A nullable boolean column as it appears in the JSON response. -/
def optBool : Option Bool → Json
  | none => .null
  | some b => .bool b

/-- The per-date object GET /api/data builds from one table row
(src/server.js lines 59-67): the three boolean columns, meal4 and the
note text unpacked from the note column, and the spread ...times. -/
def rowOut (row : DbRow) : Json :=
  let p := parseNote row.note
  let base : List (String × Json) :=
    [("meal1", optBool row.meal1), ("meal2", optBool row.meal2),
     ("meal3", optBool row.meal3),
     ("meal4", p.extra.orProp "meal4" (.bool false)),
     ("note", p.text)]
  Json.obj (objFold base (Json.jsSpread p.times))

/-- The regular expression (dddd-dd-dd)_meal(d) anchored at the start
of a blob name (d a digit): returns the date key and the meal digit. -/
def matchVideoName (name : String) : Option (String × String) :=
  match name.toList with
  | a :: b :: c :: d :: '-' :: e :: f :: '-' :: g :: h :: '_' :: 'm' :: 'e' :: 'a' :: 'l' :: n :: _ =>
    if a.isDigit && b.isDigit && c.isDigit && d.isDigit && e.isDigit && f.isDigit
        && g.isDigit && h.isDigit && n.isDigit then
      some (String.mk [a, b, c, d, '-', e, f, '-', g, h], String.singleton n)
    else none
  | _ => none

/-- src/server.js lines 72-81: attach one listed blob under its date's
videos object, synthesizing the date entry and the videos object when
absent or falsy. -/
def addVideo (acc : List (String × Json)) (dk mealNum name : String) :
    List (String × Json) :=
  let cur : Json := match acc.lookup dk with
    | some v => if v.truthy then v else .obj []
    | none => .obj []
  let vids := cur.orProp "videos" (.obj [])
  let vids2 := vids.setProp ("meal" ++ mealNum) (.str name)
  jsInsert acc dk (cur.setProp "videos" vids2)

/-- The files.forEach loop of GET /api/data: fold addVideo over the
listed blobs whose names match the pattern. -/
def attachVideos : List Blob → List (String × Json) → List (String × Json)
  | [], acc => acc
  | b :: rest, acc =>
    attachVideos rest (match matchVideoName b.name with
      | some (dk, mealNum) => addVideo acc dk mealNum b.name
      | none => acc)

/-- GET /api/data (src/server.js lines 52-89): all rows, then the first
1000 listed blobs attached as videos. -/
def getData (st : ServerState) : Json :=
  let base := st.table.foldl (fun acc kv => jsInsert acc kv.1 (rowOut kv.2)) []
  Json.obj (attachVideos (st.bucket.take 1000) base)

/-- Set or clear one timestamp: flag true writes the current time, flag
false deletes the key (src/server.js lines 104-123). -/
def applyFlag (times : Json) (key : String) (flag : Bool) (now : String) : Json :=
  if flag then times.setProp key (.str now) else times.delProp key

/-- One flag block of POST /api/data: when the flag is in the update,
set or clear its timestamp; otherwise leave the times alone. -/
def flagStep (t : Json) (o : Option Bool) (k now : String) : Json :=
  match o with
  | some b => applyFlag t k b now
  | none => t

/-- The times object after the four flag blocks of POST /api/data
(src/server.js lines 104-123), applied in source order. -/
def newTimes (p : NoteParts) (u : Updates) (now : String) : Json :=
  flagStep (flagStep (flagStep (flagStep p.times
    u.meal1 "meal1_time" now) u.meal2 "meal2_time" now)
    u.meal3 "meal3_time" now) u.meal4 "meal4_time" now

/-- The extra object after the meal4 block (line 120). -/
def newExtra (p : NoteParts) (u : Updates) : Json :=
  match u.meal4 with | some b => p.extra.setProp "meal4" (.bool b) | none => p.extra

/-- noteText after line 124. -/
def newText (p : NoteParts) (u : Updates) : Json :=
  match u.note with | some s => Json.str s | none => p.text

/-- The row payload the handler upserts (lines 101-126). -/
def postPatch (p : NoteParts) (u : Updates) (now : String) : DbRow :=
  { meal1 := u.meal1, meal2 := u.meal2, meal3 := u.meal3,
    note := some (packNote (newText p u) (newTimes p u now) (newExtra p u)) }

/-- POST /api/data/:dateKey (src/server.js lines 92-138).  now is the
value of new Date().toISOString() during the request. -/
def postData (st : ServerState) (dk : String) (u : Updates) (now : String) :
    ServerState × Resp :=
  let p := parseNote ((st.table.lookup dk).bind DbRow.note)
  ({ st with table := upsertTable st.table dk (postPatch p u now) }, okResp)

/-- POST /api/video/:dateKey/:meal (src/server.js lines 141-164, with the
multer fileFilter of lines 24-31 in front): reject a missing file or a
non-video content type; otherwise remove the blob with exactly the new
name and store the upload under dateKey_mealMEAL with the extension of
the original name (.mp4 when it has none). -/
def postVideo (st : ServerState) (dk meal : String) (file : Option VFile) :
    ServerState × Resp :=
  match file with
  | none => (st, .err 400 "No video uploaded")
  | some f =>
    if strStartsWith f.mimetype "video/" then
      let ext := if extname f.originalname = "" then ".mp4" else extname f.originalname
      let filename := dk ++ "_meal" ++ meal ++ ext
      ({ st with bucket := st.bucket.filter (fun b => b.name ≠ filename)
          ++ [⟨filename, f.buffer, f.mimetype⟩] },
       .json (.obj [("ok", .bool true), ("filename", .str filename)]))
    else (st, .err 500 "Only video files are allowed")

/-- GET /api/video/:dateKey/:meal (src/server.js lines 167-183): the
first listed blob whose name starts with dateKey_mealMEAL, served as a
redirect to its public URL (a fixed function of the blob name, here
identified with the name). -/
def getVideo (st : ServerState) (dk meal : String) : ServerState × Resp :=
  let files := st.bucket.take 1000
  match files.find? (fun b => strStartsWith b.name (dk ++ "_meal" ++ meal)) with
  | none => (st, .err 404 "No video found")
  | some b => (st, .redirect b.name)

/-- DELETE /api/video/:dateKey/:meal (src/server.js lines 186-202):
remove every listed blob whose name starts with the prefix; zero matches
is fine. -/
def delVideo (st : ServerState) (dk meal : String) : ServerState × Resp :=
  let files := st.bucket.take 1000
  let toDelete := (files.filter (fun b => strStartsWith b.name (dk ++ "_meal" ++ meal))).map Blob.name
  ({ st with bucket := if toDelete.length > 0 then
      st.bucket.filter (fun b => !(toDelete.contains b.name)) else st.bucket },
   okResp)

/-- DELETE /api/data (src/server.js lines 205-219): delete every row
whose date_key is not the empty string (.neq), then remove every listed
blob (one list call, limit 1000). -/
def clearAll (st : ServerState) : ServerState × Resp :=
  let table2 := st.table.filter (fun kv => kv.1 == "")
  let files := st.bucket.take 1000
  let bucket2 := if files.length > 0 then
    st.bucket.filter (fun b => !((files.map Blob.name).contains b.name)) else st.bucket
  ({ table := table2, bucket := bucket2 }, okResp)

/-! ## The older variant src/unnamed/part_000

Same table and bucket; its record handlers know nothing of meal4,
timestamps or note packing, and its video handlers are line-for-line the
ones of src/server.js. -/

namespace V0

/-- POST /api/data/:dateKey (part_000 lines 78-99): the recognized
columns are forwarded unchanged; the note column stores the raw note.
The now argument is the request time; this variant never reads it. -/
def postData (st : ServerState) (dk : String) (u : Updates) (now : String) :
    ServerState × Resp :=
  let patch : DbRow :=
    { meal1 := u.meal1, meal2 := u.meal2, meal3 := u.meal3, note := u.note }
  ({ st with table := upsertTable st.table dk patch }, okResp)

/-- The per-date object of part_000's GET /api/data (lines 46-53):
meal1..meal3 and note || ''. -/
def rowOut (row : DbRow) : Json :=
  Json.obj [("meal1", optBool row.meal1), ("meal2", optBool row.meal2),
            ("meal3", optBool row.meal3), ("note", .str (row.note.getD ""))]

/-- GET /api/data (part_000 lines 39-75): same videos loop, smaller
per-row object. -/
def getData (st : ServerState) : Json :=
  let base := st.table.foldl (fun acc kv => jsInsert acc kv.1 (rowOut kv.2)) []
  Json.obj (attachVideos (st.bucket.take 1000) base)

/-- POST /api/video/:dateKey/:meal (part_000 lines 102-127; code
identical to src/server.js). -/
def postVideo (st : ServerState) (dk meal : String) (file : Option VFile) :
    ServerState × Resp :=
  match file with
  | none => (st, .err 400 "No video uploaded")
  | some f =>
    if strStartsWith f.mimetype "video/" then
      let ext := if extname f.originalname = "" then ".mp4" else extname f.originalname
      let filename := dk ++ "_meal" ++ meal ++ ext
      ({ st with bucket := st.bucket.filter (fun b => b.name ≠ filename)
          ++ [⟨filename, f.buffer, f.mimetype⟩] },
       .json (.obj [("ok", .bool true), ("filename", .str filename)]))
    else (st, .err 500 "Only video files are allowed")

/-- GET /api/video/:dateKey/:meal (part_000 lines 130-147; identical to
src/server.js). -/
def getVideo (st : ServerState) (dk meal : String) : ServerState × Resp :=
  let files := st.bucket.take 1000
  match files.find? (fun b => strStartsWith b.name (dk ++ "_meal" ++ meal)) with
  | none => (st, .err 404 "No video found")
  | some b => (st, .redirect b.name)

/-- DELETE /api/video/:dateKey/:meal (part_000 lines 150-166; identical
to src/server.js). -/
def delVideo (st : ServerState) (dk meal : String) : ServerState × Resp :=
  let files := st.bucket.take 1000
  let toDelete := (files.filter (fun b => strStartsWith b.name (dk ++ "_meal" ++ meal))).map Blob.name
  ({ st with bucket := if toDelete.length > 0 then
      st.bucket.filter (fun b => !(toDelete.contains b.name)) else st.bucket },
   okResp)

/-- DELETE /api/data (part_000 lines 169-185; identical to
src/server.js). -/
def clearAll (st : ServerState) : ServerState × Resp :=
  let table2 := st.table.filter (fun kv => kv.1 == "")
  let files := st.bucket.take 1000
  let bucket2 := if files.length > 0 then
    st.bucket.filter (fun b => !((files.map Blob.name).contains b.name)) else st.bucket
  ({ table := table2, bucket := bucket2 }, okResp)

end V0

/-! ## Whole-service request semantics -/

/-- One API request.  The now field of update carries the request-time
clock reading new Date().toISOString() so both variants see the same
request data. -/
inductive Req where
  | getAll
  | update (dk : String) (u : Updates) (now : String)
  | upload (dk meal : String) (file : Option VFile)
  | fetchVideo (dk meal : String)
  | removeVideo (dk meal : String)
  | clear
deriving Repr, DecidableEq

/-- src/server.js as a request-to-response function. -/
def step (st : ServerState) : Req → ServerState × Resp
  | .getAll => (st, .json (getData st))
  | .update dk u now => postData st dk u now
  | .upload dk meal file => postVideo st dk meal file
  | .fetchVideo dk meal => getVideo st dk meal
  | .removeVideo dk meal => delVideo st dk meal
  | .clear => clearAll st

/-- src/unnamed/part_000 as a request-to-response function. -/
def stepV0 (st : ServerState) : Req → ServerState × Resp
  | .getAll => (st, .json (V0.getData st))
  | .update dk u now => V0.postData st dk u now
  | .upload dk meal file => V0.postVideo st dk meal file
  | .fetchVideo dk meal => V0.getVideo st dk meal
  | .removeVideo dk meal => V0.delVideo st dk meal
  | .clear => V0.clearAll st

/-- Run a request sequence through src/server.js. -/
def run (st : ServerState) : List Req → ServerState × List Resp
  | [] => (st, [])
  | r :: rs =>
    let s2 := step st r
    let s3 := run s2.1 rs
    (s3.1, s2.2 :: s3.2)

/-- Run a request sequence through part_000. -/
def runV0 (st : ServerState) : List Req → ServerState × List Resp
  | [] => (st, [])
  | r :: rs =>
    let s2 := stepV0 st r
    let s3 := runV0 s2.1 rs
    (s3.1, s2.2 :: s3.2)

/-- The record object GET /api/data reports for one date key. -/
def dataAt (st : ServerState) (dk : String) : Option Json :=
  (getData st).getProp dk

/-- One field of that record. -/
def fieldAt (st : ServerState) (dk key : String) : Option Json :=
  (dataAt st dk).bind (fun r => r.getProp key)

/-! ## Association-list lemmas -/

/-- No key occurs twice (any value type). -/
def keysNodup {α : Type} : List (String × α) → Bool
  | [] => true
  | p :: r => !(r.any (fun q => q.1 = p.1)) && keysNodup r

theorem beq_false_of_ne {a b : String} (h : a ≠ b) : (a == b) = false :=
  beq_eq_false_iff_ne.mpr h

theorem jsInsert_lookup_self (l : List (String × Json)) (k : String) (v : Json) :
    (jsInsert l k v).lookup k = some v := by
  induction l with
  | nil => simp [jsInsert, List.lookup]
  | cons p rest ih =>
    by_cases h : p.1 = k
    · simp [jsInsert, h, List.lookup]
    · obtain ⟨pk, pv⟩ := p
      simp only at h
      simp [jsInsert, h, List.lookup, ih, beq_false_of_ne (Ne.symm h)]

theorem jsInsert_lookup_ne (l : List (String × Json)) (k k2 : String) (v : Json)
    (h : k ≠ k2) : (jsInsert l k2 v).lookup k = l.lookup k := by
  induction l with
  | nil => simp [jsInsert, List.lookup, beq_false_of_ne h]
  | cons p rest ih =>
    obtain ⟨pk, pv⟩ := p
    by_cases h2 : pk = k2
    · subst h2
      simp [jsInsert, List.lookup, beq_false_of_ne h]
    · simp [jsInsert, h2, List.lookup, ih]

theorem getProp_setProp_ne (j : Json) (k k2 : String) (v : Json) (h : k ≠ k2) :
    (j.setProp k2 v).getProp k = j.getProp k := by
  cases j <;> simp [Json.setProp, Json.getProp]
  exact jsInsert_lookup_ne _ _ _ _ h

theorem getProp_setProp_self (j : Json) (k : String) (v : Json) :
    (j.setProp k v).getProp k = match j with | .obj _ => some v | _ => none := by
  cases j <;> simp [Json.setProp, Json.getProp]
  exact jsInsert_lookup_self _ _ _

theorem filter_lookup_ne (l : List (String × Json)) (k k2 : String) (h : k ≠ k2) :
    (l.filter (fun p => p.1 ≠ k2)).lookup k = l.lookup k := by
  induction l with
  | nil => simp
  | cons p rest ih =>
    obtain ⟨pk, pv⟩ := p
    rw [List.filter_cons]
    by_cases h2 : pk = k2
    · rw [if_neg (by simp [h2])]
      rw [ih]
      have hb : (k == pk) = false := beq_false_of_ne (fun he => h (by rw [he, h2]))
      simp [List.lookup, hb]
    · rw [if_pos (by simp [h2])]
      by_cases h3 : pk = k
      · subst h3
        simp [List.lookup]
      · have hb : (k == pk) = false := beq_false_of_ne (Ne.symm h3)
        simp only [List.lookup, hb]
        exact ih

theorem filter_lookup_self (l : List (String × Json)) (k : String) :
    (l.filter (fun p => p.1 ≠ k)).lookup k = none := by
  induction l with
  | nil => simp
  | cons p rest ih =>
    obtain ⟨pk, pv⟩ := p
    rw [List.filter_cons]
    by_cases h2 : pk = k
    · rw [if_neg (by simp [h2])]
      exact ih
    · rw [if_pos (by simp [h2])]
      have hb : (k == pk) = false := beq_false_of_ne (Ne.symm h2)
      simp only [List.lookup, hb]
      exact ih

theorem getProp_delProp_ne (j : Json) (k k2 : String) (h : k ≠ k2) :
    (j.delProp k2).getProp k = j.getProp k := by
  cases j with
  | obj fields => exact filter_lookup_ne fields k k2 h
  | null => rfl
  | bool b => rfl
  | num n => rfl
  | str s => rfl
  | arr items => rfl

theorem getProp_delProp_self (j : Json) (k : String) :
    (j.delProp k).getProp k = none := by
  cases j with
  | obj fields => exact filter_lookup_self fields k
  | null => rfl
  | bool b => rfl
  | num n => rfl
  | str s => rfl
  | arr items => rfl

theorem getProp_applyFlag_self (times : Json) (k : String) (b : Bool) (now : String)
    (hobj : ∃ fields, times = Json.obj fields) :
    (applyFlag times k b now).getProp k
      = if b then some (.str now) else none := by
  obtain ⟨fields, rfl⟩ := hobj
  cases b with
  | true => simp [applyFlag, getProp_setProp_self]
  | false => simp [applyFlag, getProp_delProp_self]

theorem getProp_applyFlag_ne (times : Json) (k k2 : String) (b : Bool) (now : String)
    (h : k ≠ k2) :
    (applyFlag times k2 b now).getProp k = times.getProp k := by
  cases b with
  | true => simp [applyFlag, getProp_setProp_ne _ _ _ _ h]
  | false => simp [applyFlag, getProp_delProp_ne _ _ _ h]

theorem lookup_objFold_not_mem (l : List (String × Json)) :
    ∀ (acc : List (String × Json)) (k : String), (∀ p ∈ l, p.1 ≠ k) →
    (objFold acc l).lookup k = acc.lookup k := by
  induction l with
  | nil => intro acc k _; simp [objFold]
  | cons p rest ih =>
    intro acc k hk
    simp only [objFold, List.foldl_cons]
    have h1 := ih (jsInsert acc p.1 p.2) k (fun q hq => hk q (List.mem_cons_of_mem p hq))
    simp only [objFold] at h1
    rw [h1, jsInsert_lookup_ne _ _ _ _ (fun he => hk p (List.mem_cons_self p rest) he.symm)]

theorem lookup_eq_none_of_any_false (l : List (String × Json)) (k : String)
    (h : (l.any (fun q => q.1 = k)) = false) : l.lookup k = none := by
  induction l with
  | nil => rfl
  | cons p rest ih =>
    simp only [List.any_cons, Bool.or_eq_false_iff] at h
    have hb : (k == p.1) = false :=
      beq_false_of_ne (fun he => by simp [he.symm] at h)
    simp only [List.lookup, hb]
    exact ih h.2

theorem lookup_objFold_nodup (l : List (String × Json)) :
    ∀ (acc : List (String × Json)) (k : String), nodupKeysB l = true →
    (objFold acc l).lookup k
      = match l.lookup k with
        | some v => some v
        | none => acc.lookup k := by
  induction l with
  | nil => intro acc k _; simp [objFold, List.lookup]
  | cons p rest ih =>
    obtain ⟨pk, pv⟩ := p
    intro acc k hnd
    simp only [nodupKeysB, Bool.and_eq_true, Bool.not_eq_true'] at hnd
    simp only [objFold, List.foldl_cons]
    have h1 := ih (jsInsert acc pk pv) k hnd.2
    simp only [objFold] at h1
    rw [h1]
    by_cases hk : pk = k
    · subst hk
      have hnot : rest.lookup pk = none := lookup_eq_none_of_any_false rest pk hnd.1
      simp [List.lookup, hnot, jsInsert_lookup_self]
    · have hb : (k == pk) = false := beq_false_of_ne (Ne.symm hk)
      rw [jsInsert_lookup_ne _ _ _ _ (Ne.symm hk)]
      simp only [List.lookup, hb]

theorem lookup_none_of_any_false {α : Type} (l : List (String × α)) (k : String)
    (h : (l.any (fun q => q.1 = k)) = false) : l.lookup k = none := by
  induction l with
  | nil => rfl
  | cons p rest ih =>
    simp only [List.any_cons, Bool.or_eq_false_iff] at h
    have hb : (k == p.1) = false :=
      beq_false_of_ne (fun he => by simp [he.symm] at h)
    simp only [List.lookup, hb]
    exact ih h.2

theorem any_false_of_lookup_none {α : Type} (l : List (String × α)) (k : String)
    (h : l.lookup k = none) : (l.any (fun q => q.1 = k)) = false := by
  induction l with
  | nil => rfl
  | cons p rest ih =>
    by_cases hk : p.1 = k
    · rw [List.lookup, show (k == p.1) = true from beq_iff_eq.mpr hk.symm] at h
      simp at h
    · rw [List.lookup, show (k == p.1) = false from beq_false_of_ne (Ne.symm hk)] at h
      simp [List.any_cons, hk, ih h]

/-! ## The note well-formedness invariant

Every note the service itself writes packs an object of timestamps
whose keys come from the four mealN_time names, and an object of extra
fields; goodNote states that of a stored note column and is what the
record-level theorems assume about the prior state (it holds of every
state the API can produce, including the empty one). -/

def timeKeys : List String := ["meal1_time", "meal2_time", "meal3_time", "meal4_time"]

/-- The unpacked times component is an object with no duplicate keys,
every key one of the four timestamp names, and well-formed values. -/
def goodTimes : Json → Bool
  | .obj fields => nodupKeysB fields
      && fields.all (fun p => timeKeys.contains p.1 && wfB p.2)
  | _ => false

/-- The unpacked extra component is an object with no duplicate keys and
well-formed values. -/
def goodExtra : Json → Bool
  | .obj fields => nodupKeysB fields && wfFieldsB fields
  | _ => false

/-- Invariant of a stored note column (or of an absent one). -/
def goodNote (raw : Option String) : Bool :=
  wfB (parseNote raw).text && goodTimes (parseNote raw).times
    && goodExtra (parseNote raw).extra

theorem goodNote_none : goodNote none = true := by decide

theorem any_jsInsert (l : List (String × Json)) (k x : String) (v : Json) :
    ((jsInsert l k v).any (fun q => q.1 = x))
      = (l.any (fun q => q.1 = x) || decide (k = x)) := by
  induction l with
  | nil => simp [jsInsert]
  | cons p rest ih =>
    obtain ⟨pk, pv⟩ := p
    by_cases h : pk = k
    · subst h
      simp only [jsInsert, if_pos rfl, List.any_cons]
      by_cases hx : pk = x <;> simp [hx]
    · simp only [jsInsert, if_neg h, List.any_cons, ih]
      by_cases hx : pk = x <;> simp [hx, Bool.or_assoc]

theorem nodupKeysB_jsInsert (l : List (String × Json)) (k : String) (v : Json)
    (h : nodupKeysB l = true) : nodupKeysB (jsInsert l k v) = true := by
  induction l with
  | nil => simp [jsInsert, nodupKeysB]
  | cons p rest ih =>
    obtain ⟨pk, pv⟩ := p
    simp only [nodupKeysB, Bool.and_eq_true, Bool.not_eq_true'] at h
    by_cases h2 : pk = k
    · subst h2
      simp [jsInsert, nodupKeysB, h.1, h.2]
    · simp only [jsInsert, if_neg h2, nodupKeysB, Bool.and_eq_true, Bool.not_eq_true']
      refine ⟨?_, ih h.2⟩
      rw [any_jsInsert]
      simp only [h.1, Bool.false_or, decide_eq_false_iff_not]
      exact fun he => h2 he.symm

theorem all_jsInsert (l : List (String × Json)) (k : String) (v : Json)
    (pred : String × Json → Bool) (h : l.all pred = true) (hkv : pred (k, v) = true) :
    (jsInsert l k v).all pred = true := by
  induction l with
  | nil => simp [jsInsert, hkv]
  | cons p rest ih =>
    obtain ⟨pk, pv⟩ := p
    simp only [List.all_cons, Bool.and_eq_true] at h
    by_cases h2 : pk = k
    · subst h2
      simp [jsInsert, List.all_cons, hkv, h.2]
    · simp [jsInsert, if_neg h2, List.all_cons, h.1, ih h.2]

theorem any_filter (l : List (String × Json)) (pred : String × Json → Bool) (x : String)
    (h : ((l.filter pred).any (fun q => q.1 = x)) = true) :
    (l.any (fun q => q.1 = x)) = true := by
  induction l with
  | nil => simp at h
  | cons p rest ih =>
    rw [List.filter_cons] at h
    by_cases h2 : pred p
    · rw [if_pos h2, List.any_cons] at h
      rcases Bool.or_eq_true_iff.mp h with h3 | h3
      · simp [List.any_cons, h3]
      · simp [List.any_cons, ih h3]
    · rw [if_neg h2] at h
      simp [List.any_cons, ih h]

theorem nodupKeysB_filter (l : List (String × Json)) (pred : String × Json → Bool)
    (h : nodupKeysB l = true) : nodupKeysB (l.filter pred) = true := by
  induction l with
  | nil => simp [nodupKeysB]
  | cons p rest ih =>
    simp only [nodupKeysB, Bool.and_eq_true, Bool.not_eq_true'] at h
    rw [List.filter_cons]
    by_cases h2 : pred p
    · rw [if_pos h2]
      simp only [nodupKeysB, Bool.and_eq_true, Bool.not_eq_true']
      refine ⟨?_, ih h.2⟩
      rcases hany : ((rest.filter pred).any (fun q => q.1 = p.1)) with _ | _
      · rfl
      · rw [any_filter rest pred p.1 hany] at h
        exact h.1
    · rw [if_neg h2]
      exact ih h.2

theorem all_filter_of_all (l : List (String × Json)) (pred q : String × Json → Bool)
    (h : l.all q = true) : (l.filter pred).all q = true := by
  induction l with
  | nil => simp
  | cons p rest ih =>
    simp only [List.all_cons, Bool.and_eq_true] at h
    rw [List.filter_cons]
    by_cases h2 : pred p
    · rw [if_pos h2]
      simp [List.all_cons, h.1, ih h.2]
    · rw [if_neg h2]
      exact ih h.2

theorem goodTimes_applyFlag (t : Json) (k : String) (b : Bool) (now : String)
    (hg : goodTimes t = true) (hk : timeKeys.contains k = true) :
    goodTimes (applyFlag t k b now) = true := by
  cases t with
  | obj fields =>
    simp only [goodTimes, Bool.and_eq_true] at hg
    cases b with
    | true =>
      have h1 := nodupKeysB_jsInsert fields k (.str now) hg.1
      have h2 := all_jsInsert fields k (.str now) _ hg.2
        (by simp only [Bool.and_eq_true]; exact ⟨hk, rfl⟩)
      rw [show applyFlag (Json.obj fields) k true now
          = (Json.obj fields).setProp k (Json.str now) from by simp [applyFlag]]
      simp only [Json.setProp, goodTimes]
      rw [h1, h2]
      rfl
    | false =>
      have h1 := nodupKeysB_filter fields (fun p => p.1 ≠ k) hg.1
      have h2 := all_filter_of_all fields (fun p => p.1 ≠ k) _ hg.2
      rw [show applyFlag (Json.obj fields) k false now
          = (Json.obj fields).delProp k from by simp [applyFlag]]
      simp only [Json.delProp, goodTimes]
      rw [h1, h2]
      rfl
  | null => simp [goodTimes] at hg
  | bool b2 => simp [goodTimes] at hg
  | num n => simp [goodTimes] at hg
  | str s => simp [goodTimes] at hg
  | arr items => simp [goodTimes] at hg

theorem wfFieldsB_of_all (l : List (String × Json))
    (h : l.all (fun p => wfB p.2) = true) : wfFieldsB l = true := by
  induction l with
  | nil => rfl
  | cons p rest ih =>
    simp only [List.all_cons, Bool.and_eq_true] at h
    simp [wfFieldsB, h.1, ih h.2]

theorem all_of_wfFieldsB (l : List (String × Json)) (h : wfFieldsB l = true) :
    l.all (fun p => wfB p.2) = true := by
  induction l with
  | nil => rfl
  | cons p rest ih =>
    simp only [wfFieldsB, Bool.and_eq_true] at h
    simp [List.all_cons, h.1, ih h.2]

theorem goodTimes_wfB (t : Json) (hg : goodTimes t = true) : wfB t = true := by
  cases t with
  | obj fields =>
    simp only [goodTimes, Bool.and_eq_true] at hg
    simp only [wfB, Bool.and_eq_true]
    refine ⟨hg.1, wfFieldsB_of_all _ ?_⟩
    have h2 := hg.2
    rw [List.all_eq_true] at h2 ⊢
    intro p hp
    have h3 := h2 p hp
    simp only [Bool.and_eq_true] at h3
    exact h3.2
  | null => rfl
  | bool b2 => rfl
  | num n => simp [goodTimes] at hg
  | str s => rfl
  | arr items => simp [goodTimes] at hg

theorem goodExtra_wfB (t : Json) (hg : goodExtra t = true) : wfB t = true := by
  cases t <;> simp_all [goodExtra, wfB]

theorem goodExtra_setProp (t : Json) (k : String) (v : Json)
    (hg : goodExtra t = true) (hv : wfB v = true) :
    goodExtra (t.setProp k v) = true := by
  cases t with
  | obj fields =>
    simp only [goodExtra, Bool.and_eq_true] at hg
    simp only [Json.setProp, goodExtra, Bool.and_eq_true]
    constructor
    · exact nodupKeysB_jsInsert _ _ _ hg.1
    · apply wfFieldsB_of_all
      exact all_jsInsert _ _ _ _ (all_of_wfFieldsB _ hg.2) (by simpa using hv)
  | null => simp [goodExtra] at hg
  | bool b2 => simp [goodExtra] at hg
  | num n => simp [goodExtra] at hg
  | str s => simp [goodExtra] at hg
  | arr items => simp [goodExtra] at hg

/-! ## Reading one field of one record out of GET /api/data -/

theorem getProp_none_of_not_truthy (v : Json) (hk : v.truthy = false) (key : String) :
    v.getProp key = none := by
  cases v <;> simp_all [Json.truthy, Json.getProp]

/-- The videos loop never changes a field other than videos of any
record (and never invents such a field). -/
theorem attachVideos_field (files : List Blob) :
    ∀ (acc : List (String × Json)) (dk key : String), key ≠ "videos" →
    ((attachVideos files acc).lookup dk).bind (fun r => r.getProp key)
      = ((acc.lookup dk).bind (fun r => r.getProp key)) := by
  induction files with
  | nil => intro acc dk key _; rfl
  | cons b rest ih =>
    intro acc dk key h
    simp only [attachVideos]
    rw [ih _ dk key h]
    cases hm : matchVideoName b.name with
    | none => rfl
    | some p =>
      obtain ⟨dk2, mealNum⟩ := p
      simp only [addVideo]
      by_cases hdk : dk2 = dk
      · subst hdk
        rw [jsInsert_lookup_self]
        simp only [Option.some_bind]
        rw [getProp_setProp_ne _ _ _ _ h]
        cases hl : acc.lookup dk2 with
        | none => simp [Json.getProp]
        | some v =>
          by_cases ht : v.truthy
          · simp [ht]
          · simp only [ht, Bool.false_eq_true, if_false, Option.some_bind]
            rw [getProp_none_of_not_truthy v (by simpa using ht) key]
            simp [Json.getProp]
      · rw [jsInsert_lookup_ne _ _ _ _ (fun he => hdk he.symm)]

theorem lookup_map {α : Type} (f : α → Json) (t : List (String × α)) (dk : String) :
    (t.map (fun kv => (kv.1, f kv.2))).lookup dk = (t.lookup dk).map f := by
  induction t with
  | nil => rfl
  | cons p rest ih =>
    by_cases h : p.1 = dk
    · simp [List.lookup, beq_iff_eq.mpr h.symm]
    · simp only [List.map_cons, List.lookup, beq_false_of_ne (Ne.symm h)]
      exact ih

theorem nodupKeysB_map {α : Type} (f : α → Json) (t : List (String × α)) :
    nodupKeysB (t.map (fun kv => (kv.1, f kv.2))) = keysNodup t := by
  induction t with
  | nil => rfl
  | cons p rest ih =>
    have h2 : ∀ (l : List (String × α)),
        ((List.map (fun kv => (kv.1, f kv.2)) l).any fun q => decide (q.1 = p.1))
          = (l.any fun q => decide (q.1 = p.1)) := by
      intro l
      induction l with
      | nil => rfl
      | cons q r ihr => simp [List.any_cons, ihr]
    simp only [List.map_cons, nodupKeysB, keysNodup, ih, h2 rest]

/-- The first fold of GET /api/data is lookup-equivalent to the table. -/
theorem base_lookup {α : Type} (f : α → Json) (t : List (String × α)) (dk : String)
    (hnd : keysNodup t = true) :
    (t.foldl (fun acc kv => jsInsert acc kv.1 (f kv.2)) []).lookup dk
      = (t.lookup dk).map f := by
  have h1 : t.foldl (fun acc kv => jsInsert acc kv.1 (f kv.2)) []
      = objFold [] (t.map (fun kv => (kv.1, f kv.2))) := by
    simp [objFold, List.foldl_map]
  rw [h1, lookup_objFold_nodup _ _ _ (by rw [nodupKeysB_map]; exact hnd)]
  rw [lookup_map]
  cases t.lookup dk <;> simp [List.lookup]

/-- Reading a non-videos field of date dk out of GET /api/data is
reading it out of the row for dk. -/
theorem getProp_obj (l : List (String × Json)) (k : String) :
    (Json.obj l).getProp k = l.lookup k := rfl

theorem fieldAt_eq (st : ServerState) (dk key : String)
    (hnd : keysNodup st.table = true) (hkey : key ≠ "videos") :
    fieldAt st dk key = (st.table.lookup dk).bind (fun row => (rowOut row).getProp key) := by
  unfold fieldAt dataAt getData
  rw [getProp_obj]
  rw [attachVideos_field _ _ _ _ hkey]
  rw [base_lookup rowOut st.table dk hnd]
  cases st.table.lookup dk <;> simp

theorem lookup_none_of_all_keys (l : List (String × Json)) (pred : String → Bool)
    (key : String) (hall : l.all (fun p => pred p.1) = true) (hk : pred key = false) :
    l.lookup key = none := by
  induction l with
  | nil => rfl
  | cons p rest ih =>
    simp only [List.all_cons, Bool.and_eq_true] at hall
    have hne : p.1 ≠ key := fun he => by rw [he] at hall; rw [hall.1] at hk; cases hk
    simp only [List.lookup, beq_false_of_ne (Ne.symm hne)]
    exact ih hall.2

/-- A goodTimes object holds no key outside the four timestamp names. -/
theorem goodTimes_getProp_not_time (t : Json) (key : String) (hg : goodTimes t = true)
    (hk : timeKeys.contains key = false) : t.getProp key = none := by
  cases t with
  | obj fields =>
    simp only [goodTimes, Bool.and_eq_true] at hg
    simp only [Json.getProp]
    apply lookup_none_of_all_keys fields (fun x => timeKeys.contains x) key _ hk
    have h2 := hg.2
    rw [List.all_eq_true] at h2 ⊢
    intro p hp
    have h3 := h2 p hp
    simp only [Bool.and_eq_true] at h3
    exact h3.1
  | null => rfl
  | bool b2 => rfl
  | num n => rfl
  | str s => rfl
  | arr items => rfl

/-- Reading one key of the per-date object rowOut builds: the spread
times entry when the key is a timestamp present in times, the base
entry otherwise. -/
theorem rowOut_getProp (row : DbRow) (key : String)
    (hg : goodTimes (parseNote row.note).times = true) :
    (rowOut row).getProp key
      = match (parseNote row.note).times.getProp key with
        | some v => some v
        | none =>
          [("meal1", optBool row.meal1), ("meal2", optBool row.meal2),
           ("meal3", optBool row.meal3),
           ("meal4", (parseNote row.note).extra.orProp "meal4" (.bool false)),
           ("note", (parseNote row.note).text)].lookup key := by
  unfold rowOut
  cases htimes : (parseNote row.note).times with
  | obj fields =>
    rw [htimes] at hg
    simp only [goodTimes, Bool.and_eq_true] at hg
    simp only [Json.getProp, Json.jsSpread, htimes]
    exact lookup_objFold_nodup fields _ key hg.1
  | null => rw [htimes] at hg; simp [goodTimes] at hg
  | bool b2 => rw [htimes] at hg; simp [goodTimes] at hg
  | num n => rw [htimes] at hg; simp [goodTimes] at hg
  | str s => rw [htimes] at hg; simp [goodTimes] at hg
  | arr items => rw [htimes] at hg; simp [goodTimes] at hg

/-! ## Upsert lemmas -/

theorem upsertTable_lookup_self (t : List (String × DbRow)) (dk : String) (patch : DbRow) :
    (upsertTable t dk patch).lookup dk
      = some (mergeRow ((t.lookup dk).getD {}) patch) := by
  induction t with
  | nil => simp [upsertTable, List.lookup]
  | cons p rest ih =>
    obtain ⟨k, r⟩ := p
    by_cases h : k = dk
    · subst h
      simp [upsertTable, List.lookup]
    · simp only [upsertTable, if_neg h, List.lookup, beq_false_of_ne (Ne.symm h)]
      exact ih

theorem upsertTable_lookup_ne (t : List (String × DbRow)) (k dk : String)
    (patch : DbRow) (h : k ≠ dk) :
    (upsertTable t dk patch).lookup k = t.lookup k := by
  induction t with
  | nil => simp [upsertTable, List.lookup, beq_false_of_ne h]
  | cons p rest ih =>
    obtain ⟨k2, r⟩ := p
    by_cases h2 : k2 = dk
    · subst h2
      simp [upsertTable, List.lookup, beq_false_of_ne h]
    · simp only [upsertTable, if_neg h2, List.lookup]
      cases k == k2 <;> simp [ih]

theorem any_upsertTable (t : List (String × DbRow)) (dk x : String) (patch : DbRow) :
    ((upsertTable t dk patch).any (fun q => q.1 = x))
      = (t.any (fun q => q.1 = x) || decide (dk = x)) := by
  induction t with
  | nil => simp [upsertTable]
  | cons p rest ih =>
    obtain ⟨k, r⟩ := p
    by_cases h : k = dk
    · subst h
      simp only [upsertTable, if_pos rfl, List.any_cons]
      by_cases hx : k = x <;> simp [hx]
    · simp only [upsertTable, if_neg h, List.any_cons, ih]
      by_cases hx : k = x <;> simp [hx, Bool.or_assoc]

theorem keysNodup_upsertTable (t : List (String × DbRow)) (dk : String) (patch : DbRow)
    (h : keysNodup t = true) : keysNodup (upsertTable t dk patch) = true := by
  induction t with
  | nil => simp [upsertTable, keysNodup]
  | cons p rest ih =>
    obtain ⟨k, r⟩ := p
    simp only [keysNodup, Bool.and_eq_true, Bool.not_eq_true'] at h
    by_cases h2 : k = dk
    · subst h2
      simp [upsertTable, keysNodup, h.1, h.2]
    · simp only [upsertTable, if_neg h2, keysNodup, Bool.and_eq_true, Bool.not_eq_true']
      refine ⟨?_, ih h.2⟩
      rw [any_upsertTable]
      simp only [h.1, Bool.false_or, decide_eq_false_iff_not]
      exact fun he => h2 he.symm

/-- The response field name of meal flag n. -/
def mealKey : Nat → String
  | 1 => "meal1"
  | 2 => "meal2"
  | 3 => "meal3"
  | 4 => "meal4"
  | _ => ""

/-- The response field name of meal timestamp n. -/
def timeKey : Nat → String
  | 1 => "meal1_time"
  | 2 => "meal2_time"
  | 3 => "meal3_time"
  | 4 => "meal4_time"
  | _ => ""

/-- The flag for meal n in a partial update. -/
def mealFlag (u : Updates) : Nat → Option Bool
  | 1 => u.meal1
  | 2 => u.meal2
  | 3 => u.meal3
  | 4 => u.meal4
  | _ => none

/-- Whether a raw string is a JSON object carrying a text key — the
condition under which parseNote unpacks instead of falling back. -/
def isTextObj (raw : String) : Bool :=
  match Json.parse raw with
  | some (Json.obj fields) => (Json.obj fields).hasProp "text"
  | _ => false

/-- A bucket holding one .mov video for (2026-01-02, meal 1): the C2
scenario's prior state. -/
def movState : ServerState :=
  { table := [], bucket := [⟨"2026-01-02_meal1.mov", "old", "video/quicktime"⟩] }

/-- A table holding one record under the empty date key: the C5
scenario's prior state. -/
def emptyKeyState : ServerState :=
  { table := [("", { meal1 := some true })], bucket := [] }

/-- A small populated state: one record, one blob. -/
def oneEachState : ServerState :=
  { table := [("x", { meal1 := some true })],
    bucket := [⟨"2026-01-02_meal1.mp4", "V", "video/mp4"⟩] }

/-! ## Claim theorems -/

/-- C7: an upload whose declared content type does not begin with video/
is rejected (the multer fileFilter error surfaces as an error response)
and the whole state — in particular the Blob Store — is unchanged. -/
theorem claim7_nonvideo_rejected (st : ServerState) (dk meal : String) (f : VFile)
    (h : strStartsWith f.mimetype "video/" = false) :
    (postVideo st dk meal (some f)).1 = st
    ∧ (postVideo st dk meal (some f)).1.bucket = st.bucket
    ∧ (postVideo st dk meal (some f)).2 = .err 500 "Only video files are allowed" := by
  simp [postVideo, h]

theorem claim7_witness :
    strStartsWith (VFile.mk "notes.txt" "text/plain" "DATA").mimetype "video/" = false
    ∧ (postVideo initState "2026-01-02" "1" (some ⟨"notes.txt", "text/plain", "DATA"⟩)).1
        = initState := by
  refine ⟨by decide, ?_⟩
  exact (claim7_nonvideo_rejected initState "2026-01-02" "1"
    ⟨"notes.txt", "text/plain", "DATA"⟩ (by decide)).1

/-- C8: deleting the video of a pair with no blob matching the
dateKey_mealMEAL prefix succeeds with ok: true and leaves the state
(in particular the Blob Store) unchanged. -/
theorem claim8_delete_missing_noop (st : ServerState) (dk meal : String)
    (h : ∀ b ∈ st.bucket, strStartsWith b.name (dk ++ "_meal" ++ meal) = false) :
    delVideo st dk meal = (st, okResp) := by
  unfold delVideo
  have htd : (st.bucket.take 1000).filter
      (fun b => strStartsWith b.name (dk ++ "_meal" ++ meal)) = [] := by
    rw [List.filter_eq_nil_iff]
    intro b hb
    simp [h b (List.mem_of_mem_take hb)]
  simp [htd]

theorem claim8_witness :
    (∀ b ∈ ({ table := [], bucket := [⟨"2026-01-03_meal2.mp4", "X", "video/mp4"⟩] } :
        ServerState).bucket, strStartsWith b.name ("2026-01-02" ++ "_meal" ++ "1") = false)
    ∧ delVideo { table := [], bucket := [⟨"2026-01-03_meal2.mp4", "X", "video/mp4"⟩] }
        "2026-01-02" "1"
      = ({ table := [], bucket := [⟨"2026-01-03_meal2.mp4", "X", "video/mp4"⟩] }, okResp) := by
  refine ⟨by decide, ?_⟩
  exact claim8_delete_missing_noop _ "2026-01-02" "1" (by decide)

/-- C9: a successful upload stores the blob under
dateKey_mealMEAL.EXT where EXT is the extension of the original name,
or .mp4 when it has none, and answers ok: true with exactly that
filename; the new bucket is the old one minus any blob of that exact
name plus the new blob. -/
theorem claim9_upload_filename (st : ServerState) (dk meal : String) (f : VFile)
    (hmime : strStartsWith f.mimetype "video/" = true) :
    (postVideo st dk meal (some f)).2
      = .json (.obj [("ok", .bool true),
          ("filename", .str (dk ++ "_meal" ++ meal
            ++ (if extname f.originalname = "" then ".mp4" else extname f.originalname)))])
    ∧ (postVideo st dk meal (some f)).1.bucket
      = st.bucket.filter (fun b => b.name ≠ (dk ++ "_meal" ++ meal
            ++ (if extname f.originalname = "" then ".mp4" else extname f.originalname)))
        ++ [⟨dk ++ "_meal" ++ meal
            ++ (if extname f.originalname = "" then ".mp4" else extname f.originalname),
            f.buffer, f.mimetype⟩] := by
  simp [postVideo, hmime]

theorem claim9_witness :
    (strStartsWith "video/mp4" "video/" = true
      ∧ (postVideo initState "2026-01-02" "1" (some ⟨"clip.mov", "video/mp4", "V"⟩)).2
          = .json (.obj [("ok", .bool true), ("filename", .str "2026-01-02_meal1.mov")]))
    ∧ (postVideo initState "2026-01-02" "2" (some ⟨"noext", "video/mp4", "V"⟩)).2
        = .json (.obj [("ok", .bool true), ("filename", .str "2026-01-02_meal2.mp4")]) := by
  refine ⟨⟨by decide, ?_⟩, ?_⟩
  · have h := (claim9_upload_filename initState "2026-01-02" "1"
      ⟨"clip.mov", "video/mp4", "V"⟩ (by decide)).1
    rw [h]
    decide
  · have h := (claim9_upload_filename initState "2026-01-02" "2"
      ⟨"noext", "video/mp4", "V"⟩ (by decide)).1
    rw [h]
    decide

/-- C2 fails on the code: the upload handler removes only the blob with
exactly the new filename, so an old blob for the same (date, meal) pair
with a different extension survives; here both a .mov and a .mp4 blob
for (2026-01-02, meal 1) exist after the upload. -/
theorem claim2_counterexample :
    ((postVideo movState "2026-01-02" "1" (some ⟨"new.mp4", "video/mp4", "NEW"⟩)).1.bucket.filter
      (fun b => strStartsWith b.name "2026-01-02_meal1")).length = 2
    ∧ (⟨"2026-01-02_meal1.mov", "old", "video/quicktime"⟩ : Blob)
        ∈ (postVideo movState "2026-01-02" "1" (some ⟨"new.mp4", "video/mp4", "NEW"⟩)).1.bucket := by
  decide

/-- C2 amended: put removes only a blob named exactly like the new one
(same extension); afterwards exactly one blob of the new name exists,
and every old blob with any other name — including one for the same
pair with a different extension — survives. -/
theorem claim2_amended_exact_name_only (st : ServerState) (dk meal : String) (f : VFile)
    (hmime : strStartsWith f.mimetype "video/" = true) :
    ((postVideo st dk meal (some f)).1.bucket.filter
        (fun b => b.name = (dk ++ "_meal" ++ meal
          ++ (if extname f.originalname = "" then ".mp4" else extname f.originalname)))).length = 1
    ∧ ∀ b ∈ st.bucket, b.name ≠ (dk ++ "_meal" ++ meal
          ++ (if extname f.originalname = "" then ".mp4" else extname f.originalname))
        → b ∈ (postVideo st dk meal (some f)).1.bucket := by
  have hb := (claim9_upload_filename st dk meal f hmime).2
  rw [hb]
  constructor
  · rw [List.filter_append, List.length_append]
    have h1 : (st.bucket.filter (fun b => b.name ≠ (dk ++ "_meal" ++ meal
        ++ (if extname f.originalname = "" then ".mp4" else extname f.originalname)))).filter
          (fun b => b.name = (dk ++ "_meal" ++ meal
            ++ (if extname f.originalname = "" then ".mp4" else extname f.originalname))) = [] := by
      rw [List.filter_filter, List.filter_eq_nil_iff]
      intro b _
      simp only [Bool.and_eq_true, decide_eq_true_eq, Bool.not_eq_true', decide_eq_false_iff_not]
      intro hcontra
      simp [hcontra.2] at hcontra
    rw [h1]
    simp
  · intro b hbmem hbne
    rw [List.mem_append]
    left
    rw [List.mem_filter]
    exact ⟨hbmem, by simp [hbne]⟩

theorem claim2_amended_witness :
    (strStartsWith "video/mp4" "video/" = true)
    ∧ ((postVideo movState "2026-01-02" "1"
          (some ⟨"new.mp4", "video/mp4", "NEW"⟩)).1.bucket.filter
        (fun b => b.name = "2026-01-02_meal1.mp4")).length = 1 := by
  refine ⟨by decide, ?_⟩
  have h := (claim2_amended_exact_name_only movState
    "2026-01-02" "1" ⟨"new.mp4", "video/mp4", "NEW"⟩ (by decide)).1
  simpa using h

/-- C5 fails on the code: DELETE /api/data removes rows with
.neq('date_key', ''), so a record whose date key is the empty string
survives and GET /api/data still reports it. -/
theorem claim5_counterexample :
    (clearAll emptyKeyState).1.table = [("", { meal1 := some true })]
    ∧ dataAt (clearAll emptyKeyState).1 "" ≠ none := by
  constructor
  · decide
  · decide

theorem lookup_filter_empty_key (t : List (String × DbRow)) (k : String) (h : k ≠ "") :
    (t.filter (fun kv => kv.1 == "")).lookup k = none := by
  induction t with
  | nil => rfl
  | cons p rest ih =>
    rw [List.filter_cons]
    by_cases h2 : p.1 = ""
    · rw [if_pos (by simp [h2])]
      simp only [List.lookup, beq_false_of_ne (h2 ▸ h)]
      exact ih
    · rw [if_neg (by simp [h2])]
      exact ih

/-- C5 amended: after DELETE /api/data no record with a non-empty date
key remains, and if at most 1000 blobs were stored (one list page) no
blob remains; the response is ok: true.  A record under the empty date
key — never creatable through the API, whose date keys come from a
non-empty path segment — survives. -/
theorem claim5_amended_clear (st : ServerState) :
    (∀ k, k ≠ "" → (clearAll st).1.table.lookup k = none)
    ∧ (st.bucket.length ≤ 1000 → (clearAll st).1.bucket = [])
    ∧ (clearAll st).2 = okResp := by
  refine ⟨?_, ?_, rfl⟩
  · intro k hk
    exact lookup_filter_empty_key st.table k hk
  · intro hlen
    show (let files := st.bucket.take 1000
      if files.length > 0 then
        st.bucket.filter (fun b => !((files.map Blob.name).contains b.name))
      else st.bucket) = []
    have htake : st.bucket.take 1000 = st.bucket := List.take_of_length_le hlen
    rw [htake]
    by_cases hpos : st.bucket.length > 0
    · rw [if_pos hpos]
      rw [List.filter_eq_nil_iff]
      intro b hb
      have hc : (st.bucket.map Blob.name).contains b.name = true := by
        rw [List.contains_iff_exists_mem_beq]
        exact ⟨b.name, List.mem_map_of_mem Blob.name hb, by simp⟩
      simp
      exact ⟨b, hb, rfl⟩
    · rw [if_neg hpos]
      cases hb : st.bucket with
      | nil => rfl
      | cons x xs => rw [hb] at hpos; simp at hpos

theorem claim5_amended_witness :
    ("x" : String) ≠ ""
    ∧ (clearAll oneEachState).1.table.lookup "x" = none
    ∧ (clearAll oneEachState).1.bucket = [] := by
  have h := claim5_amended_clear oneEachState
  exact ⟨by decide, h.1 "x" (by decide), h.2.1 (by decide)⟩

/-- C4 fails on the code: the two variants are not functionally
equivalent.  After the same single update u007b meal1: true u007d, GET
/api/data answers differently: server.js reports meal4, the note text
and a meal1_time timestamp; part_000 reports neither. -/
theorem claim4_counterexample :
    (run initState [.update "2026-01-02" { meal1 := some true } "T1", .getAll]).2
      ≠ (runV0 initState [.update "2026-01-02" { meal1 := some true } "T1", .getAll]).2 := by
  decide

/-- C4 amended: the variants agree on the video endpoints and on the
global clear — those handlers are line-for-line identical — while the
record endpoints differ (only server.js supports meal4, per-meal
timestamps and note packing), so GET /api/data responses can differ
after the same updates. -/
theorem claim4_amended_video_ops_equal (st : ServerState) (dk meal : String)
    (file : Option VFile) :
    V0.postVideo st dk meal file = postVideo st dk meal file
    ∧ V0.getVideo st dk meal = getVideo st dk meal
    ∧ V0.delVideo st dk meal = delVideo st dk meal
    ∧ V0.clearAll st = clearAll st :=
  ⟨rfl, rfl, rfl, rfl⟩

/-- C10: packNote and parseNote form a round trip — for every text
string and every times and extra map of JSON values (keys unique, as
JavaScript objects force; numeric leaves carry their decimal token),
parseNote of packNote gives back exactly the three components; null
inputs normalize to the empty string and empty maps; and every raw
string that is not a JSON object carrying a text key parses as a bare
note with empty maps. -/
theorem claim10_pack_parse_roundtrip :
    (∀ (s : String) (t e : List (String × Json)),
        nodupKeysB t = true → wfFieldsJ t = true →
        nodupKeysB e = true → wfFieldsJ e = true →
        parseNote (some (packNote (.str s) (.obj t) (.obj e)))
          = ⟨.str s, .obj t, .obj e⟩)
    ∧ parseNote (some (packNote .null .null .null)) = ⟨.str "", .obj [], .obj []⟩
    ∧ (∀ raw : String, isTextObj raw = false →
        parseNote (some raw) = ⟨.str raw, .obj [], .obj []⟩) := by
  refine ⟨?_, ?_, ?_⟩
  · intro s t e hnt hwt hne hwe
    have h := parseNote_packNote (.str s) (.obj t) (.obj e) rfl
      (by simp [wfJ, hnt, hwt]) (by simp [wfJ, hne, hwe])
    rw [h]
    have hs : (Json.str s).jsOr (.str "") = .str s := by
      by_cases hse : s = ""
      · subst hse; rfl
      · simp [Json.jsOr, Json.truthy, hse]
    have hto : (Json.obj t).jsOr (.obj []) = .obj t := rfl
    have heo : (Json.obj e).jsOr (.obj []) = .obj e := rfl
    rw [NoteParts.mk.injEq]
    exact ⟨hs, hto, heo⟩
  · decide
  · intro raw hraw
    by_cases he : raw = ""
    · subst he
      simp [parseNote]
    · simp only [parseNote, if_neg he]
      unfold isTextObj at hraw
      cases hp : Json.parse raw with
      | none => simp [hp]
      | some j =>
        rw [hp] at hraw
        cases j with
        | obj fields =>
          have hraw2 : (Json.obj fields).hasProp "text" = false := hraw
          simp [hp, hraw2]
        | null => simp [hp]
        | bool b => simp [hp]
        | num n => simp [hp]
        | str s2 => simp [hp]
        | arr items => simp [hp]

theorem goodTimes_flagStep (t : Json) (o : Option Bool) (k now : String)
    (hg : goodTimes t = true) (hk : timeKeys.contains k = true) :
    goodTimes (flagStep t o k now) = true := by
  cases o with
  | none => exact hg
  | some b => exact goodTimes_applyFlag t k b now hg hk

theorem flagStep_getProp_ne (t : Json) (o : Option Bool) (k k2 now : String)
    (h : k ≠ k2) : (flagStep t o k2 now).getProp k = t.getProp k := by
  cases o with
  | none => rfl
  | some b => exact getProp_applyFlag_ne t k k2 b now h

theorem goodTimes_isObj (t : Json) (hg : goodTimes t = true) :
    ∃ fields, t = Json.obj fields := by
  cases t with
  | obj fields => exact ⟨fields, rfl⟩
  | null => simp [goodTimes] at hg
  | bool b => simp [goodTimes] at hg
  | num n => simp [goodTimes] at hg
  | str s => simp [goodTimes] at hg
  | arr items => simp [goodTimes] at hg

theorem goodExtra_isObj (t : Json) (hg : goodExtra t = true) :
    ∃ fields, t = Json.obj fields := by
  cases t with
  | obj fields => exact ⟨fields, rfl⟩
  | null => simp [goodExtra] at hg
  | bool b => simp [goodExtra] at hg
  | num n => simp [goodExtra] at hg
  | str s => simp [goodExtra] at hg
  | arr items => simp [goodExtra] at hg

theorem flagStep_getProp_self (t : Json) (b : Bool) (k now : String)
    (hobj : ∃ fields, t = Json.obj fields) :
    (flagStep t (some b) k now).getProp k = if b then some (.str now) else none :=
  getProp_applyFlag_self t k b now hobj

theorem flagStep_none (t : Json) (k now : String) : flagStep t none k now = t := rfl

theorem goodTimes_newTimes (p : NoteParts) (u : Updates) (now : String)
    (hg : goodTimes p.times = true) : goodTimes (newTimes p u now) = true := by
  unfold newTimes
  exact goodTimes_flagStep _ u.meal4 _ now
    (goodTimes_flagStep _ u.meal3 _ now
      (goodTimes_flagStep _ u.meal2 _ now
        (goodTimes_flagStep _ u.meal1 _ now hg (by decide)) (by decide)) (by decide)) (by decide)

/-- A flag present in the update ends with its timestamp set iff true. -/
theorem newTimes_getProp_set (p : NoteParts) (u : Updates) (now : String)
    (n : Nat) (b : Bool) (hn : n ∈ [1, 2, 3, 4]) (hu : mealFlag u n = some b)
    (hg : goodTimes p.times = true) :
    (newTimes p u now).getProp (timeKey n) = if b then some (.str now) else none := by
  have g1 := goodTimes_flagStep p.times u.meal1 "meal1_time" now hg (by decide)
  have g2 := goodTimes_flagStep _ u.meal2 "meal2_time" now g1 (by decide)
  have g3 := goodTimes_flagStep _ u.meal3 "meal3_time" now g2 (by decide)
  simp only [List.mem_cons, List.mem_singleton] at hn
  unfold newTimes
  rcases hn with rfl | rfl | rfl | rfl | h5
  · simp only [mealFlag] at hu
    rw [flagStep_getProp_ne _ u.meal4 _ _ now (by decide),
      flagStep_getProp_ne _ u.meal3 _ _ now (by decide),
      flagStep_getProp_ne _ u.meal2 _ _ now (by decide), hu]
    exact flagStep_getProp_self p.times b _ now (goodTimes_isObj _ hg)
  · simp only [mealFlag] at hu
    rw [flagStep_getProp_ne _ u.meal4 _ _ now (by decide),
      flagStep_getProp_ne _ u.meal3 _ _ now (by decide), hu]
    exact flagStep_getProp_self _ b _ now (goodTimes_isObj _ g1)
  · simp only [mealFlag] at hu
    rw [flagStep_getProp_ne _ u.meal4 _ _ now (by decide), hu]
    exact flagStep_getProp_self _ b _ now (goodTimes_isObj _ g2)
  · simp only [mealFlag] at hu
    rw [hu]
    exact flagStep_getProp_self _ b _ now (goodTimes_isObj _ g3)
  · cases h5

/-- A flag absent from the update leaves its timestamp entry alone. -/
theorem newTimes_getProp_unset (p : NoteParts) (u : Updates) (now : String)
    (n : Nat) (hn : n ∈ [1, 2, 3, 4]) (hu : mealFlag u n = none) :
    (newTimes p u now).getProp (timeKey n) = p.times.getProp (timeKey n) := by
  simp only [List.mem_cons, List.mem_singleton] at hn
  unfold newTimes
  rcases hn with rfl | rfl | rfl | rfl | h5
  · simp only [mealFlag] at hu
    rw [flagStep_getProp_ne _ u.meal4 _ _ now (by decide),
      flagStep_getProp_ne _ u.meal3 _ _ now (by decide),
      flagStep_getProp_ne _ u.meal2 _ _ now (by decide), hu, flagStep_none]
  · simp only [mealFlag] at hu
    rw [flagStep_getProp_ne _ u.meal4 _ _ now (by decide),
      flagStep_getProp_ne _ u.meal3 _ _ now (by decide), hu, flagStep_none]
    exact flagStep_getProp_ne _ u.meal1 _ _ now (by decide)
  · simp only [mealFlag] at hu
    rw [flagStep_getProp_ne _ u.meal4 _ _ now (by decide), hu, flagStep_none]
    rw [flagStep_getProp_ne _ u.meal2 _ _ now (by decide)]
    exact flagStep_getProp_ne _ u.meal1 _ _ now (by decide)
  · simp only [mealFlag] at hu
    rw [hu, flagStep_none]
    rw [flagStep_getProp_ne _ u.meal3 _ _ now (by decide),
      flagStep_getProp_ne _ u.meal2 _ _ now (by decide)]
    exact flagStep_getProp_ne _ u.meal1 _ _ now (by decide)
  · cases h5

theorem goodExtra_newExtra (p : NoteParts) (u : Updates)
    (hg : goodExtra p.extra = true) : goodExtra (newExtra p u) = true := by
  unfold newExtra
  cases u.meal4 with
  | none => exact hg
  | some b => exact goodExtra_setProp p.extra "meal4" (.bool b) hg rfl

theorem orProp_jsOr (j : Json) (k : String) :
    ((j.orProp k (.str "")).jsOr (.str "")) = j.orProp k (.str "") := by
  unfold Json.orProp
  cases j.getProp k with
  | none => rfl
  | some v => exact jsOr_jsOr v (.str "")

/-- The text component parseNote produces absorbs a further || '' —
it is already either truthy or the empty string. -/
theorem parseNote_text_jsOr (raw : Option String) :
    ((parseNote raw).text).jsOr (.str "") = (parseNote raw).text := by
  cases raw with
  | none => rfl
  | some s =>
    by_cases he : s = ""
    · subst he; rfl
    · simp only [parseNote, if_neg he]
      cases Json.parse s with
      | none => simp [Json.jsOr, Json.truthy, he]
      | some j =>
        cases j with
        | obj fields =>
          by_cases ht : (Json.obj fields).hasProp "text" = true
          · simp only [ht, if_true]
            exact orProp_jsOr (Json.obj fields) "text"
          · simp only [ht, if_false]
            simp [Json.jsOr, Json.truthy, he]
        | null => simp [Json.jsOr, Json.truthy, he]
        | bool b => simp [Json.jsOr, Json.truthy, he]
        | num n => simp [Json.jsOr, Json.truthy, he]
        | str s2 => simp [Json.jsOr, Json.truthy, he]
        | arr items => simp [Json.jsOr, Json.truthy, he]

/-- What POST /api/data makes GET /api/data report for the updated
date: the new times entry when the key is a timestamp it holds, the
merged row fields otherwise. -/
theorem postData_fieldAt (st : ServerState) (dk now key : String) (u : Updates)
    (hnd : keysNodup st.table = true)
    (hgood : goodNote ((st.table.lookup dk).bind DbRow.note) = true)
    (hkey : key ≠ "videos") :
    fieldAt (postData st dk u now).1 dk key
      = (match (newTimes (parseNote ((st.table.lookup dk).bind DbRow.note)) u now).getProp
            key with
         | some v => some v
         | none =>
           [("meal1", optBool (mergeRow ((st.table.lookup dk).getD {})
              (postPatch (parseNote ((st.table.lookup dk).bind DbRow.note)) u now)).meal1),
            ("meal2", optBool (mergeRow ((st.table.lookup dk).getD {})
              (postPatch (parseNote ((st.table.lookup dk).bind DbRow.note)) u now)).meal2),
            ("meal3", optBool (mergeRow ((st.table.lookup dk).getD {})
              (postPatch (parseNote ((st.table.lookup dk).bind DbRow.note)) u now)).meal3),
            ("meal4", (newExtra (parseNote ((st.table.lookup dk).bind DbRow.note)) u).orProp
              "meal4" (.bool false)),
            ("note", (newText (parseNote ((st.table.lookup dk).bind DbRow.note)) u).jsOr
              (.str ""))].lookup key) := by
  simp only [goodNote, Bool.and_eq_true] at hgood
  have hwtext : wfB (newText (parseNote ((st.table.lookup dk).bind DbRow.note)) u) = true := by
    unfold newText
    cases u.note with
    | some s => rfl
    | none => exact hgood.1.1
  have hgt4 : goodTimes (newTimes (parseNote ((st.table.lookup dk).bind DbRow.note)) u now)
      = true := goodTimes_newTimes _ u now hgood.1.2
  have hge : goodExtra (newExtra (parseNote ((st.table.lookup dk).bind DbRow.note)) u)
      = true := goodExtra_newExtra _ u hgood.2
  obtain ⟨tf, htf⟩ := goodTimes_isObj _ hgt4
  obtain ⟨ef, hef⟩ := goodExtra_isObj _ hge
  have hparse : parseNote (some (packNote
      (newText (parseNote ((st.table.lookup dk).bind DbRow.note)) u)
      (newTimes (parseNote ((st.table.lookup dk).bind DbRow.note)) u now)
      (newExtra (parseNote ((st.table.lookup dk).bind DbRow.note)) u)))
      = ⟨(newText (parseNote ((st.table.lookup dk).bind DbRow.note)) u).jsOr (.str ""),
         newTimes (parseNote ((st.table.lookup dk).bind DbRow.note)) u now,
         newExtra (parseNote ((st.table.lookup dk).bind DbRow.note)) u⟩ := by
    rw [parseNote_packNote _ _ _ (wfJ_of_wfB _ hwtext)
      (wfJ_of_wfB _ (goodTimes_wfB _ hgt4)) (wfJ_of_wfB _ (goodExtra_wfB _ hge))]
    rw [NoteParts.mk.injEq]
    refine ⟨rfl, ?_, ?_⟩
    · rw [htf]; rfl
    · rw [hef]; rfl
  have hnd2 : keysNodup (postData st dk u now).1.table = true := by
    show keysNodup (upsertTable st.table dk _) = true
    exact keysNodup_upsertTable _ _ _ hnd
  rw [fieldAt_eq _ _ _ hnd2 hkey]
  show ((upsertTable st.table dk _).lookup dk).bind _ = _
  rw [upsertTable_lookup_self]
  simp only [Option.some_bind]
  have hmn : (mergeRow ((st.table.lookup dk).getD {})
      (postPatch (parseNote ((st.table.lookup dk).bind DbRow.note)) u now)).note
      = some (packNote (newText (parseNote ((st.table.lookup dk).bind DbRow.note)) u)
          (newTimes (parseNote ((st.table.lookup dk).bind DbRow.note)) u now)
          (newExtra (parseNote ((st.table.lookup dk).bind DbRow.note)) u)) := rfl
  rw [rowOut_getProp _ key (by rw [hmn, hparse]; exact hgt4)]
  rw [hmn, hparse]

theorem str_jsOr (s : String) : (Json.str s).jsOr (.str "") = .str s := by
  by_cases hs : s = ""
  · subst hs; rfl
  · simp [Json.jsOr, Json.truthy, hs]

/-- The note column POST /api/data stores unpacks to the new text,
times and extra the handler computed. -/
theorem postData_storedNote (st : ServerState) (dk now : String) (u : Updates)
    (hgood : goodNote ((st.table.lookup dk).bind DbRow.note) = true) :
    parseNote (((postData st dk u now).1.table.lookup dk).bind DbRow.note)
      = ⟨(newText (parseNote ((st.table.lookup dk).bind DbRow.note)) u).jsOr (.str ""),
         newTimes (parseNote ((st.table.lookup dk).bind DbRow.note)) u now,
         newExtra (parseNote ((st.table.lookup dk).bind DbRow.note)) u⟩ := by
  simp only [goodNote, Bool.and_eq_true] at hgood
  have hwtext : wfB (newText (parseNote ((st.table.lookup dk).bind DbRow.note)) u) = true := by
    unfold newText
    cases u.note with
    | some s => rfl
    | none => exact hgood.1.1
  have hgt4 : goodTimes (newTimes (parseNote ((st.table.lookup dk).bind DbRow.note)) u now)
      = true := goodTimes_newTimes _ u now hgood.1.2
  have hge : goodExtra (newExtra (parseNote ((st.table.lookup dk).bind DbRow.note)) u)
      = true := goodExtra_newExtra _ u hgood.2
  obtain ⟨tf, htf⟩ := goodTimes_isObj _ hgt4
  obtain ⟨ef, hef⟩ := goodExtra_isObj _ hge
  show parseNote (((upsertTable st.table dk _).lookup dk).bind DbRow.note) = _
  rw [upsertTable_lookup_self]
  simp only [Option.some_bind]
  rw [show (mergeRow ((st.table.lookup dk).getD {})
      (postPatch (parseNote ((st.table.lookup dk).bind DbRow.note)) u now)).note
      = some (packNote (newText (parseNote ((st.table.lookup dk).bind DbRow.note)) u)
          (newTimes (parseNote ((st.table.lookup dk).bind DbRow.note)) u now)
          (newExtra (parseNote ((st.table.lookup dk).bind DbRow.note)) u)) from rfl]
  rw [parseNote_packNote _ _ _ (wfJ_of_wfB _ hwtext)
      (wfJ_of_wfB _ (goodTimes_wfB _ hgt4)) (wfJ_of_wfB _ (goodExtra_wfB _ hge))]
  rw [NoteParts.mk.injEq]
  refine ⟨rfl, ?_, ?_⟩
  · rw [htf]; rfl
  · rw [hef]; rfl

/-- C6: an upsert carrying note stores exactly the supplied string as
the record's note text (replacing the previous one), and GET /api/data
reports that very string as the note of that date. -/
theorem claim6_note_verbatim (st : ServerState) (dk now s : String) (u : Updates)
    (hu : u.note = some s)
    (hnd : keysNodup st.table = true)
    (hgood : goodNote ((st.table.lookup dk).bind DbRow.note) = true) :
    (parseNote (((postData st dk u now).1.table.lookup dk).bind DbRow.note)).text = .str s
    ∧ fieldAt (postData st dk u now).1 dk "note" = some (.str s) := by
  have hg2 := hgood
  simp only [goodNote, Bool.and_eq_true] at hg2
  have hnt : newText (parseNote ((st.table.lookup dk).bind DbRow.note)) u = .str s := by
    simp [newText, hu]
  constructor
  · rw [postData_storedNote st dk now u hgood]
    show (newText (parseNote ((st.table.lookup dk).bind DbRow.note)) u).jsOr (.str "") = _
    rw [hnt, str_jsOr]
  · rw [postData_fieldAt st dk now "note" u hnd hgood (by decide)]
    show (match (newTimes (parseNote ((st.table.lookup dk).bind DbRow.note)) u now).getProp
        "note" with
      | some v => some v
      | none => _) = _
    rw [goodTimes_getProp_not_time _ _ (goodTimes_newTimes _ u now hg2.1.2) (by decide)]
    simp only [List.lookup]
    rw [show (("note" : String) == "meal1") = false from by decide,
      show (("note" : String) == "meal2") = false from by decide,
      show (("note" : String) == "meal3") = false from by decide,
      show (("note" : String) == "meal4") = false from by decide,
      show (("note" : String) == "note") = true from by decide]
    rw [hnt, str_jsOr]

theorem claim6_witness :
    ({ note := some "dinner at home" } : Updates).note = some "dinner at home"
    ∧ keysNodup initState.table = true
    ∧ goodNote ((initState.table.lookup "2026-01-02").bind DbRow.note) = true
    ∧ fieldAt (postData initState "2026-01-02" { note := some "dinner at home" } "T1").1
        "2026-01-02" "note" = some (.str "dinner at home") := by
  refine ⟨rfl, by decide, by decide, ?_⟩
  exact (claim6_note_verbatim initState "2026-01-02" "T1" "dinner at home"
    { note := some "dinner at home" } rfl (by decide) (by decide)).2

theorem mealKey_not_time (n : Nat) (hn : n ∈ [1, 2, 3, 4]) :
    timeKeys.contains (mealKey n) = false := by
  simp only [List.mem_cons, List.mem_singleton] at hn
  rcases hn with rfl | rfl | rfl | rfl | h5
  · decide
  · decide
  · decide
  · decide
  · cases h5

theorem mealKey_ne_videos (n : Nat) (hn : n ∈ [1, 2, 3, 4]) : mealKey n ≠ "videos" := by
  simp only [List.mem_cons, List.mem_singleton] at hn
  rcases hn with rfl | rfl | rfl | rfl | h5
  · decide
  · decide
  · decide
  · decide
  · cases h5

theorem timeKey_ne_videos (n : Nat) (hn : n ∈ [1, 2, 3, 4]) : timeKey n ≠ "videos" := by
  simp only [List.mem_cons, List.mem_singleton] at hn
  rcases hn with rfl | rfl | rfl | rfl | h5
  · decide
  · decide
  · decide
  · decide
  · cases h5

/-- C1: after an upsert whose update carries mealN (N in 1..4) with
value b, GET /api/data reports mealN as b, and reports a mealN_time —
holding the request time — exactly when b is true: a true flag creates
the timestamp, a false flag removes it. -/
theorem claim1_flag_sets_time (st : ServerState) (dk now : String) (u : Updates)
    (n : Nat) (b : Bool) (hn : n ∈ [1, 2, 3, 4]) (hu : mealFlag u n = some b)
    (hnd : keysNodup st.table = true)
    (hgood : goodNote ((st.table.lookup dk).bind DbRow.note) = true) :
    fieldAt (postData st dk u now).1 dk (mealKey n) = some (.bool b)
    ∧ fieldAt (postData st dk u now).1 dk (timeKey n)
        = (if b then some (.str now) else none) := by
  have hg2 := hgood
  simp only [goodNote, Bool.and_eq_true] at hg2
  have hgt4 := goodTimes_newTimes (parseNote ((st.table.lookup dk).bind DbRow.note)) u now
    hg2.1.2
  constructor
  · rw [postData_fieldAt st dk now (mealKey n) u hnd hgood (mealKey_ne_videos n hn)]
    show (match (newTimes (parseNote ((st.table.lookup dk).bind DbRow.note)) u now).getProp
        (mealKey n) with
      | some v => some v
      | none => _) = _
    rw [goodTimes_getProp_not_time _ _ hgt4 (mealKey_not_time n hn)]
    simp only [List.mem_cons, List.mem_singleton] at hn
    rcases hn with rfl | rfl | rfl | rfl | h5
    · simp only [mealFlag] at hu
      simp [mealKey, List.lookup, mergeRow, postPatch, hu, optBool]
    · simp only [mealFlag] at hu
      simp [mealKey, List.lookup, mergeRow, postPatch, hu, optBool]
    · simp only [mealFlag] at hu
      simp [mealKey, List.lookup, mergeRow, postPatch, hu, optBool]
    · simp only [mealFlag] at hu
      obtain ⟨ef, hef⟩ := goodExtra_isObj _ hg2.2
      simp only [mealKey, List.lookup]
      rw [show (("meal4" : String) == "meal1") = false from by decide,
        show (("meal4" : String) == "meal2") = false from by decide,
        show (("meal4" : String) == "meal3") = false from by decide,
        show (("meal4" : String) == "meal4") = true from by decide]
      rw [show newExtra (parseNote ((st.table.lookup dk).bind DbRow.note)) u
          = (parseNote ((st.table.lookup dk).bind DbRow.note)).extra.setProp "meal4" (.bool b)
          from by simp [newExtra, hu]]
      unfold Json.orProp
      rw [getProp_setProp_self, hef]
      cases b <;> rfl
    · cases h5
  · rw [postData_fieldAt st dk now (timeKey n) u hnd hgood (timeKey_ne_videos n hn)]
    show (match (newTimes (parseNote ((st.table.lookup dk).bind DbRow.note)) u now).getProp
        (timeKey n) with
      | some v => some v
      | none => _) = _
    rw [newTimes_getProp_set _ u now n b hn hu hg2.1.2]
    cases b with
    | true => rfl
    | false =>
      simp only [Bool.false_eq_true, if_false]
      simp only [List.mem_cons, List.mem_singleton] at hn
      rcases hn with rfl | rfl | rfl | rfl | h5
      · simp [timeKey, List.lookup]
      · simp [timeKey, List.lookup]
      · simp [timeKey, List.lookup]
      · simp [timeKey, List.lookup]
      · cases h5

theorem claim1_witness :
    ((1 : Nat) ∈ [1, 2, 3, 4]
      ∧ mealFlag { meal1 := some true } 1 = some true
      ∧ keysNodup initState.table = true
      ∧ goodNote ((initState.table.lookup "2026-01-02").bind DbRow.note) = true)
    ∧ fieldAt (postData initState "2026-01-02" { meal1 := some true } "T1").1
        "2026-01-02" "meal1" = some (.bool true)
    ∧ fieldAt (postData initState "2026-01-02" { meal1 := some true } "T1").1
        "2026-01-02" "meal1_time" = some (.str "T1") := by
  have h := claim1_flag_sets_time initState "2026-01-02" "T1" { meal1 := some true }
    1 true (by decide) rfl (by decide) (by decide)
  exact ⟨⟨by decide, rfl, by decide, by decide⟩, h.1, h.2⟩

/-- C3: upsert merges.  A date key other than the updated one keeps its
row unchanged; and for the updated date, every meal flag absent from
the partial update keeps its reported value, so does its paired
timestamp, and an absent note field keeps the note text. -/
theorem claim3_merge_frame (st : ServerState) (dk now : String) (u : Updates) (row : DbRow)
    (hrow : st.table.lookup dk = some row)
    (hnd : keysNodup st.table = true)
    (hgood : goodNote row.note = true) :
    (∀ k, k ≠ dk → (postData st dk u now).1.table.lookup k = st.table.lookup k)
    ∧ (∀ n, n ∈ [1, 2, 3, 4] → mealFlag u n = none →
        fieldAt (postData st dk u now).1 dk (mealKey n) = fieldAt st dk (mealKey n)
        ∧ fieldAt (postData st dk u now).1 dk (timeKey n) = fieldAt st dk (timeKey n))
    ∧ (u.note = none →
        fieldAt (postData st dk u now).1 dk "note" = fieldAt st dk "note") := by
  have hgood2 : goodNote ((st.table.lookup dk).bind DbRow.note) = true := by
    rw [hrow]; exact hgood
  have hg2 := hgood
  simp only [goodNote, Bool.and_eq_true] at hg2
  have hgt4 : goodTimes (newTimes (parseNote ((st.table.lookup dk).bind DbRow.note)) u now)
      = true := by
    apply goodTimes_newTimes
    rw [hrow]
    exact hg2.1.2
  have hbefore : ∀ key, key ≠ "videos" → fieldAt st dk key = (rowOut row).getProp key := by
    intro key hk
    rw [fieldAt_eq st dk key hnd hk, hrow]
    rfl
  refine ⟨?_, ?_, ?_⟩
  · intro k hk
    show (upsertTable st.table dk _).lookup k = _
    exact upsertTable_lookup_ne _ k dk _ hk
  · intro n hn hu
    constructor
    · rw [postData_fieldAt st dk now (mealKey n) u hnd hgood2 (mealKey_ne_videos n hn)]
      rw [hbefore (mealKey n) (mealKey_ne_videos n hn)]
      rw [rowOut_getProp row (mealKey n) hg2.1.2]
      rw [goodTimes_getProp_not_time _ _ hgt4 (mealKey_not_time n hn)]
      rw [goodTimes_getProp_not_time _ _ hg2.1.2 (mealKey_not_time n hn)]
      rw [hrow]
      simp only [Option.some_bind, Option.getD_some]
      simp only [List.mem_cons, List.mem_singleton] at hn
      rcases hn with rfl | rfl | rfl | rfl | h5
      · simp only [mealFlag] at hu
        simp [mealKey, List.lookup, mergeRow, postPatch, hu]
      · simp only [mealFlag] at hu
        simp [mealKey, List.lookup, mergeRow, postPatch, hu]
      · simp only [mealFlag] at hu
        simp [mealKey, List.lookup, mergeRow, postPatch, hu]
      · simp only [mealFlag] at hu
        simp [mealKey, List.lookup, newExtra, hu]
      · cases h5
    · rw [postData_fieldAt st dk now (timeKey n) u hnd hgood2 (timeKey_ne_videos n hn)]
      rw [hbefore (timeKey n) (timeKey_ne_videos n hn)]
      rw [rowOut_getProp row (timeKey n) hg2.1.2]
      rw [newTimes_getProp_unset _ u now n hn hu]
      rw [hrow]
      simp only [Option.some_bind, Option.getD_some]
      cases hscr : (parseNote row.note).times.getProp (timeKey n) with
      | some v => rfl
      | none =>
        simp only [List.mem_cons, List.mem_singleton] at hn
        rcases hn with rfl | rfl | rfl | rfl | h5
        · simp [timeKey, List.lookup]
        · simp [timeKey, List.lookup]
        · simp [timeKey, List.lookup]
        · simp [timeKey, List.lookup]
        · cases h5
  · intro hu
    rw [postData_fieldAt st dk now "note" u hnd hgood2 (by decide)]
    rw [hbefore "note" (by decide)]
    rw [rowOut_getProp row "note" hg2.1.2]
    rw [goodTimes_getProp_not_time _ _ hgt4 (by decide)]
    rw [goodTimes_getProp_not_time _ _ hg2.1.2 (by decide)]
    rw [hrow]
    simp only [Option.some_bind, Option.getD_some]
    simp only [List.lookup]
    rw [show (("note" : String) == "meal1") = false from by decide,
      show (("note" : String) == "meal2") = false from by decide,
      show (("note" : String) == "meal3") = false from by decide,
      show (("note" : String) == "meal4") = false from by decide,
      show (("note" : String) == "note") = true from by decide]
    rw [show newText (parseNote row.note) u = (parseNote row.note).text from by
      simp [newText, hu]]
    rw [parseNote_text_jsOr]

theorem claim3_witness :
    ((oneEachState.table.lookup "x" = some { meal1 := some true }
      ∧ keysNodup oneEachState.table = true
      ∧ goodNote ({ meal1 := some true } : DbRow).note = true)
      ∧ ("y" : String) ≠ "x"
      ∧ (2 : Nat) ∈ [1, 2, 3, 4]
      ∧ mealFlag { meal3 := some true } 2 = none
      ∧ ({ meal3 := some true } : Updates).note = none)
    ∧ (postData oneEachState "x" { meal3 := some true } "T9").1.table.lookup "y"
        = oneEachState.table.lookup "y"
    ∧ fieldAt (postData oneEachState "x" { meal3 := some true } "T9").1 "x" "meal2"
        = fieldAt oneEachState "x" "meal2"
    ∧ fieldAt (postData oneEachState "x" { meal3 := some true } "T9").1 "x" "meal2_time"
        = fieldAt oneEachState "x" "meal2_time"
    ∧ fieldAt (postData oneEachState "x" { meal3 := some true } "T9").1 "x" "note"
        = fieldAt oneEachState "x" "note" := by
  have h := claim3_merge_frame oneEachState "x" "T9" { meal3 := some true }
    { meal1 := some true } (by decide) (by decide) (by decide)
  have h2 := h.2.1 2 (by decide) rfl
  exact ⟨⟨⟨by decide, by decide, by decide⟩, by decide, by decide, rfl, rfl⟩,
    h.1 "y" (by decide), h2.1, h2.2, h.2.2 rfl⟩

theorem claim10_witness :
    (nodupKeysB [("meal1_time", Json.str "T")] = true
      ∧ wfFieldsJ [("meal1_time", Json.str "T")] = true
      ∧ nodupKeysB [("meal4", Json.bool true), ("count", Json.num "1.5")] = true
      ∧ wfFieldsJ [("meal4", Json.bool true), ("count", Json.num "1.5")] = true
      ∧ parseNote (some (packNote (.str "hi")
          (.obj [("meal1_time", Json.str "T")])
          (.obj [("meal4", Json.bool true), ("count", Json.num "1.5")])))
        = ⟨.str "hi", .obj [("meal1_time", Json.str "T")],
           .obj [("meal4", Json.bool true), ("count", Json.num "1.5")]⟩)
    ∧ (isTextObj "just a note" = false
      ∧ parseNote (some "just a note") = ⟨.str "just a note", .obj [], .obj []⟩) := by
  refine ⟨⟨by decide, by decide, by decide, by decide, ?_⟩, by decide, ?_⟩
  · exact claim10_pack_parse_roundtrip.1 "hi" [("meal1_time", Json.str "T")]
      [("meal4", Json.bool true), ("count", Json.num "1.5")]
      (by decide) (by decide) (by decide) (by decide)
  · exact claim10_pack_parse_roundtrip.2.2 "just a note" (by decide)

/-! ## The state invariant holds along every API run

The record-level theorems above assume of the prior state only that the
table keys are unique and that the stored note parses well (goodNote).
Both hold in the empty deployment and are preserved by every request,
so they hold in every state the service can reach. -/

/-- The invariant: unique date keys; every date's stored note (also an
absent one) satisfies goodNote. -/
def StateOk (st : ServerState) : Prop :=
  keysNodup st.table = true
    ∧ ∀ k, goodNote ((st.table.lookup k).bind DbRow.note) = true

theorem stateOk_init : StateOk initState :=
  ⟨rfl, fun _ => rfl⟩

theorem keysNodup_filter {α : Type} (l : List (String × α)) (pred : String × α → Bool)
    (h : keysNodup l = true) : keysNodup (l.filter pred) = true := by
  induction l with
  | nil => simp [keysNodup]
  | cons p rest ih =>
    simp only [keysNodup, Bool.and_eq_true, Bool.not_eq_true'] at h
    rw [List.filter_cons]
    by_cases h2 : pred p
    · rw [if_pos h2]
      simp only [keysNodup, Bool.and_eq_true, Bool.not_eq_true']
      refine ⟨?_, ih h.2⟩
      rcases hany : ((rest.filter pred).any (fun q => q.1 = p.1)) with _ | _
      · rfl
      · have : (rest.any (fun q => q.1 = p.1)) = true := by
          rw [List.any_eq_true] at hany ⊢
          obtain ⟨x, hx, hxe⟩ := hany
          exact ⟨x, List.mem_of_mem_filter hx, hxe⟩
        rw [this] at h
        exact h.1
    · rw [if_neg h2]
      exact ih h.2

theorem lookup_filter_key_eq (t : List (String × DbRow)) :
    (t.filter (fun kv => kv.1 == "")).lookup "" = t.lookup "" := by
  induction t with
  | nil => rfl
  | cons p rest ih =>
    rw [List.filter_cons]
    by_cases h2 : p.1 = ""
    · rw [if_pos (by simp [h2])]
      simp only [List.lookup, show (("" : String) == p.1) = true from beq_iff_eq.mpr h2.symm]
    · rw [if_neg (by simp [h2])]
      simp only [List.lookup, show (("" : String) == p.1) = false
        from beq_false_of_ne (Ne.symm h2)]
      exact ih

theorem goodNote_after_postData (st : ServerState) (dk now : String) (u : Updates)
    (h : StateOk st) (k : String) :
    goodNote (((postData st dk u now).1.table.lookup k).bind DbRow.note) = true := by
  by_cases hk : k = dk
  · subst hk
    have hgood := h.2 k
    have hg2 := hgood
    simp only [goodNote, Bool.and_eq_true] at hg2
    unfold goodNote
    rw [postData_storedNote st k now u hgood]
    simp only [Bool.and_eq_true]
    refine ⟨⟨?_, ?_⟩, ?_⟩
    · apply wfB_jsOr
      · unfold newText
        cases u.note with
        | some s => rfl
        | none => exact hg2.1.1
      · rfl
    · exact goodTimes_newTimes _ u now hg2.1.2
    · exact goodExtra_newExtra _ u hg2.2
  · show goodNote (((upsertTable st.table dk _).lookup k).bind DbRow.note) = true
    rw [upsertTable_lookup_ne _ k dk _ hk]
    exact h.2 k

theorem getVideo_state (st : ServerState) (dk meal : String) :
    (getVideo st dk meal).1 = st := by
  rcases hfind : (st.bucket.take 1000).find?
      (fun b => strStartsWith b.name (dk ++ "_meal" ++ meal)) with _ | b <;>
    simp [getVideo, hfind]

theorem postVideo_table (st : ServerState) (dk meal : String) (file : Option VFile) :
    (postVideo st dk meal file).1.table = st.table := by
  unfold postVideo
  cases file with
  | none => rfl
  | some f =>
    by_cases hm : strStartsWith f.mimetype "video/" = true
    · simp [hm]
    · simp [hm]

/-- Every request preserves the invariant. -/
theorem stateOk_step (st : ServerState) (r : Req) (h : StateOk st) :
    StateOk (step st r).1 := by
  cases r with
  | getAll => exact h
  | update dk u now =>
    refine ⟨keysNodup_upsertTable _ _ _ h.1, fun k => ?_⟩
    exact goodNote_after_postData st dk now u h k
  | upload dk meal file =>
    have ht : (step st (.upload dk meal file)).1.table = st.table :=
      postVideo_table st dk meal file
    constructor
    · rw [ht]
      exact h.1
    · intro k
      rw [ht]
      exact h.2 k
  | fetchVideo dk meal =>
    have ht : (step st (.fetchVideo dk meal)).1 = st := getVideo_state st dk meal
    rw [ht]
    exact h
  | removeVideo dk meal => exact ⟨h.1, h.2⟩
  | clear =>
    refine ⟨keysNodup_filter _ _ h.1, fun k => ?_⟩
    show goodNote (((st.table.filter (fun kv => kv.1 == "")).lookup k).bind DbRow.note) = true
    by_cases hk : k = ""
    · subst hk
      rw [lookup_filter_key_eq]
      exact h.2 ""
    · rw [lookup_filter_empty_key st.table k hk]
      rfl

/-- The invariant holds of every state an API run can produce. -/
theorem stateOk_run (st : ServerState) (rs : List Req) (h : StateOk st) :
    StateOk (run st rs).1 := by
  induction rs generalizing st with
  | nil => exact h
  | cons r rest ih =>
    simp only [run]
    exact ih _ (stateOk_step st r h)

end Food
